import Mathlib

/-!
# sponge: the `dao` and `handler` code-generation commands

A shallow embedding of `cmd/sponge/commands/generate/dao.go` and
`cmd/sponge/commands/generate/handler.go`.

* A Go string is the list of its characters (`Str`).
* The mutable world (file system, database, the registered replacer object,
  the random source) is an explicit state `W` threaded through every call.
* The collaborators that are not part of the two files (`sql2code.Generate`,
  `getNamesFromOutDir`, the `replacer.Replacer` interface, the package-level
  names and marks) are parameters, collected in `Env`, `Replacer` and `Names`.
-/

namespace Sponge

/-- A Go string: the list of its characters. -/
abbrev Str := List Char

/-- A Go `error` value that is not nil.  `msg` is an error made on the spot by
`errors.New` or `fmt.Errorf`; `ext` is an error value handed back by a
collaborator (`sql2code.Generate`, `SaveFiles`), passed on untouched. -/
inductive GoError (E : Type) where
  | msg (text : Str)
  | ext (e : E)
  deriving DecidableEq, Repr

/-- The struct `replacer.Field`, with the three fields the commands fill in. -/
structure Field where
  Old : Str
  New : Str
  IsCaseSensitive : Bool
  deriving DecidableEq, Repr

/-- A Go `map[string]string`, as an association list. -/
abbrev Codes := List (Str × Str)

/-- The map read `codes[k]`: the value stored under `k`, the empty string when absent. -/
def Codes.get (codes : Codes) (k : Str) : Str :=
  match codes.lookup k with
  | some v => v
  | none => []

/-- The fields of `sql2code.Args` that the commands set. -/
structure Args where
  Package : Str
  JSONTag : Bool
  GormType : Bool
  DBDsn : Str
  DBTable : Str
  IsEmbed : Bool
  deriving DecidableEq, Repr

/-- The methods of the interface `replacer.Replacer` that the commands call,
each acting on the world state `W`. -/
structure Replacer (W E : Type) where
  SetReplacementFields : List Field → W → W
  SetSubDirsAndFiles : List Str → W → W
  SetIgnoreSubDirs : List Str → W → W
  SetIgnoreSubFiles : List Str → W → W
  SetOutputDir : Str → Str → W → Option E × W
  GetOutputDir : W → Str
  GetSourcePath : W → Str
  SaveFiles : W → Option E × W
  ReadFile : Str → W → Except E Str

/-- Package-level names of package `generate` and the keys of package `parser`
that the two files use but do not declare. -/
structure Names where
  TplNameSponge : Str
  modelFile : Str
  modelFileMark : Str
  daoFile : Str
  daoFileMark : Str
  daoTestFile : Str
  handlerFile : Str
  handlerFileMark : Str
  handlerTestFile : Str
  selfPackageName : Str
  CodeTypeModel : Str
  CodeTypeDAO : Str
  CodeTypeHandler : Str
  TableName : Str

/-- The collaborators of the two commands. -/
structure Env (W E : Type) where
  names : Names
  getNamesFromOutDir : Str → W → Str × Str
  Generate : Args → W → Except E Codes × Args × W
  Replacers : Str → Option (Replacer W E)
  adjustmentOfIDType : Str → Str

/-! ## Go standard library: `strings.Split`, `bytes.Index`, `strings.ReplaceAll` -/

/-- The call `strings.Split(s, ",")`. -/
def splitComma : Str → List Str
  | [] => [[]]
  | c :: cs =>
    if c = ',' then [] :: splitComma cs
    else
      match splitComma cs with
      | [] => [[c]]
      | seg :: segs => (c :: seg) :: segs

/-- The call `bytes.Index(s, sub)`: the position of the first occurrence of `sub`
in `s`, `none` for Go's `-1`. -/
def index : Str → Str → Option Nat
  | [], sub => if sub = [] then some 0 else none
  | c :: cs, sub =>
    if sub.isPrefixOf (c :: cs) then some 0 else (index cs sub).map (· + 1)

/-- The call `bytes.Contains(s, sub)`. -/
def contains (s sub : Str) : Bool := (index s sub).isSome

/-- The scan of `strings.ReplaceAll` for a non-empty `old`: `skip` counts the
characters of a match that are still to be dropped. -/
def replaceGo (old new : Str) : Nat → Str → Str
  | _, [] => []
  | skip + 1, _ :: cs => replaceGo old new skip cs
  | 0, c :: cs =>
    if old.isPrefixOf (c :: cs) then new ++ replaceGo old new (old.length - 1) cs
    else c :: replaceGo old new 0 cs

/-- The call `strings.ReplaceAll(s, old, new)`: every non-overlapping occurrence
of `old`, taken from the left, is replaced by `new`; an empty `old` matches
before every character and at the end. -/
def replaceAll (s old new : Str) : Str :=
  if old = [] then new ++ s.flatMap (fun c => c :: new) else replaceGo old new 0 s

/-! ## The marks of the template tree -/

/-- The start mark of a deletable block, as it stands in the template
`internal/handler/userExample_test.go`, line 116. -/
def startMark : Str := "// delete the templates code start".toList

/-- The end mark of a deletable block, as it stands in the template
`internal/handler/userExample_test.go`, line 138. -/
def endMark : Str := "// delete the templates code end".toList

/-- The template root that both rule lists rewrite. -/
def spongeRoot : Str := "github.com/zhufuyi/sponge".toList

/-- The match text of the rule that carries the random number. -/
def userExampleNO : Str := "userExampleNO       = 1".toList

/-- A text has no border: no proper non-empty end of it is also a beginning
of it, so two occurrences of it never overlap. -/
def borderFree (m : Str) : Bool :=
  (List.range m.length).all (fun k => k == 0 || !(m.drop k).isPrefixOf m)

/-- Modelled from the spec: the search of a marker block (package `gofile` is
not under `src/`): "all text from the first occurrence of startMark through the
next occurrence of endMark (inclusive of both markers)".  `none` when the start
mark is absent or no end mark follows it. -/
def findMarkedSpan (data start stop : Str) : Option Str :=
  match index data start with
  | none => none
  | some i =>
    match index (data.drop (i + start.length)) stop with
    | none => none
    | some j => some ((data.drop i).take (start.length + j + stop.length))

/-- Modelled from the spec: `deleteFieldsMark` (declared in a file of package
`generate` that is not under `src/`).  It reads the template file through the
replacer and yields the marker-block deletion rule of that file, a rule of the
special class of spec 4.4: the rule holds the text to excise, "all text from
the first occurrence of startMark through the next occurrence of endMark
(inclusive of both markers)", and nothing to put in its place.  It yields no
rule when the file cannot be read or holds no marker block.  The result type
`[]replacer.Field` is the one `addDAOFields` appends to its rule list; the
engine applies a rule of this class by `applyDeletions`. -/
def deleteFieldsMark {W E : Type} (r : Replacer W E) (w : W) (filename : Str)
    (start stop : Str) : List Field :=
  match r.ReadFile filename w with
  | .error _ => []
  | .ok data =>
    match findMarkedSpan data start stop with
    | none => []
    | some span => [{ Old := span, New := [], IsCaseSensitive := false }]

/-- Modelled from the spec: the Substitution Engine of package `replacer` (not
under `src/`) on substitution rules: "applies each rule in sequence to the
evolving buffer".  Every rule is applied as the literal replace-all that the
claims on the rule order and on the module rewrite stipulate (C6, C7, C12);
the case flag is carried by the rule and not consulted here.  The marker-block
deletion of the engine is `exciseMarked` and `applyDeletions`. -/
def applyFields (fields : List Field) (buf : Str) : Str :=
  fields.foldl (fun b f => replaceAll b f.Old f.New) buf

/-- Modelled from the spec: the error of the Substitution Engine for a start
mark without end mark (spec 4.4 and 7). -/
inductive TransformError where
  | UnbalancedMarker
  deriving DecidableEq, Repr

/-- Modelled from the spec: the marker-block deletion of the Substitution
Engine (package `replacer`, not under `src/`), spec 4.4: "given
startMark/endMark tokens, all text from the first occurrence of startMark
through the next occurrence of endMark (inclusive of both markers) is excised;
fails with UnbalancedMarkerError if a startMark has no matching subsequent
endMark in the same file".  All other bytes stay, and a content without start
mark is left as it is (spec 8). -/
def exciseMarked (content start stop : Str) : Except TransformError Str :=
  match index content start with
  | none => .ok content
  | some i =>
    match index (content.drop (i + start.length)) stop with
    | none => .error .UnbalancedMarker
    | some j => .ok (content.take i ++ content.drop (i + start.length + j + stop.length))

/-- Modelled from the spec: how the engine applies one marker-block deletion
rule, which holds the marked span of its file: the span is taken out where it
first stands, "that exact span removed and all other bytes unchanged" (spec
8).  A buffer that does not hold the span is left as it is. -/
def exciseSpan (buf span : Str) : Str :=
  match index buf span with
  | none => buf
  | some i => buf.take i ++ buf.drop (i + span.length)

/-- Modelled from the spec: the engine on the marker-block deletion rules that
`deleteFieldsMark` yields, each applied in turn by `exciseSpan`.  A rule of
this class has no case flag in the spec. -/
def applyDeletions (fields : List Field) (buf : Str) : Str :=
  fields.foldl (fun b f => exciseSpan b f.Old) buf

/-- A file of the template tree: its directory, its file name and its content. -/
structure TemplateFile where
  dir : Str
  name : Str
  content : Str
  deriving DecidableEq, Repr

/-- A directory entry of an include or exclude list matches a directory when
it is that directory or one above it. -/
def dirMatches (entry dir : Str) : Bool :=
  entry == dir || (entry ++ ['/']).isPrefixOf dir

/-- Modelled from the spec: the Selector of package `replacer` (not under
`src/`): "If includeDirs is empty, every file in the tree is a candidate.  A
candidate is dropped if its directory matches any excludeDirs entry, or its
filename matches any excludeFiles entry."  The order of the tree is kept. -/
def Select (tree : List TemplateFile) (includeDirs excludeDirs excludeFiles : List Str) :
    List TemplateFile :=
  tree.filter (fun f =>
    (includeDirs.isEmpty || includeDirs.any (fun d => dirMatches d f.dir))
      && !(excludeDirs.any (fun d => dirMatches d f.dir))
      && !(excludeFiles.any (fun n => n == f.name)))

/-! ## dao.go -/

/-- The function `addDAOFields` of dao.go. -/
def addDAOFields {W E : Type} (n : Names) (moduleName : Str) (r : Replacer W E) (w : W)
    (codes : Codes) : List Field :=
  let fields : List Field := []
  let fields := fields ++ deleteFieldsMark r w n.modelFile startMark endMark
  let fields := fields ++ deleteFieldsMark r w n.daoFile startMark endMark
  let fields := fields ++ deleteFieldsMark r w n.daoTestFile startMark endMark
  let fields := fields ++ [
    { Old := n.modelFileMark, New := codes.get n.CodeTypeModel, IsCaseSensitive := false },
    { Old := n.daoFileMark, New := codes.get n.CodeTypeDAO, IsCaseSensitive := false },
    { Old := n.selfPackageName ++ "/".toList ++ r.GetSourcePath w, New := moduleName,
      IsCaseSensitive := false },
    { Old := "github.com/zhufuyi/sponge".toList, New := moduleName, IsCaseSensitive := false },
    { Old := moduleName ++ "/pkg".toList, New := "github.com/zhufuyi/sponge/pkg".toList,
      IsCaseSensitive := false },
    { Old := "UserExample".toList, New := codes.get n.TableName, IsCaseSensitive := true }]
  fields

/-- A call made on the replacer that changes it or writes files. -/
inductive RCall where
  | SetSubDirsAndFiles (subDirs : List Str)
  | SetIgnoreSubDirs (dirs : List Str)
  | SetIgnoreSubFiles (filenames : List Str)
  | SetReplacementFields (fields : List Field)
  | SetOutputDir (absDir name : Str)
  | SaveFiles
  deriving DecidableEq, Repr

/-- What `runGenDaoCommand` and `runGenHandlerCommand` give back: the two
results `(string, error)`, the world afterwards and the calls made on the
replacer, in order. -/
structure GenResult (W E : Type) where
  dir : Str
  err : Option (GoError E)
  world : W
  calls : List RCall

/-- The function `runGenDaoCommand` of dao.go. -/
def runGenDaoCommand {W E : Type} (env : Env W E) (moduleName : Str) (isIncludeInitDB : Bool)
    (codes : Codes) (outPath : Str) (w : W) : GenResult W E :=
  let subTplName := "dao".toList
  match env.Replacers env.names.TplNameSponge with
  | none => ⟨[], some (.msg "r is nil".toList), w, []⟩
  | some r =>
    let subDirs := ["internal/model".toList, "internal/cache".toList, "internal/dao".toList]
    let ignoreDirs : List Str := []
    let ignoreFiles := ["init.go".toList, "init_test.go".toList]
    let ignoreFiles := if isIncludeInitDB then [] else ignoreFiles
    let w1 := r.SetSubDirsAndFiles subDirs w
    let w2 := r.SetIgnoreSubDirs ignoreDirs w1
    let w3 := r.SetIgnoreSubFiles ignoreFiles w2
    let fields := addDAOFields env.names moduleName r w3 codes
    let w4 := r.SetReplacementFields fields w3
    let w5 := (r.SetOutputDir outPath subTplName w4).2
    let calls := [RCall.SetSubDirsAndFiles subDirs, .SetIgnoreSubDirs ignoreDirs,
      .SetIgnoreSubFiles ignoreFiles, .SetReplacementFields fields,
      .SetOutputDir outPath subTplName, .SaveFiles]
    match r.SaveFiles w5 with
    | (some err, w6) => ⟨[], some (.ext err), w6, calls⟩
    | (none, w6) => ⟨r.GetOutputDir w6, none, w6, calls⟩

/-- A call made by the loop of `RunE`. -/
inductive Event where
  | generate (table : Str)
  | materialize (moduleName : Str) (codes : Codes) (outPath : Str)
  deriving DecidableEq, Repr

/-- The variables the loop of `RunE` changes. -/
structure LoopState (W : Type) where
  world : W
  sqlArgs : Args
  outPath : Str

/-- The outcome of the loop of `RunE`: the error it returned with, if any, the
variables at that point and the calls made, in order. -/
structure LoopResult (W E : Type) where
  err : Option (GoError E)
  state : LoopState W
  trace : List Event

/-- The loop `for _, tableName := range tableNames` of both `RunE` closures;
`mat` is `runGenDaoCommand` or `runGenHandlerCommand` with the arguments that
do not change. -/
def tableLoop {W E : Type} (gen : Args → W → Except E Codes × Args × W)
    (mat : Str → Codes → Str → W → GenResult W E) (moduleName : Str) :
    List Str → LoopState W → LoopResult W E
  | [], st => ⟨none, st, []⟩
  | tableName :: rest, st =>
    if tableName = [] then tableLoop gen mat moduleName rest st
    else
      match gen { st.sqlArgs with DBTable := tableName } st.world with
      | (.error e, args1, w1) => ⟨some (.ext e), ⟨w1, args1, st.outPath⟩, [.generate tableName]⟩
      | (.ok codes, args1, w1) =>
        let g := mat moduleName codes st.outPath w1
        match g.err with
        | some e =>
          ⟨some e, ⟨g.world, args1, st.outPath⟩,
            [.generate tableName, .materialize moduleName codes st.outPath]⟩
        | none =>
          let outPath := if st.outPath = [] then g.dir else st.outPath
          let res := tableLoop gen mat moduleName rest ⟨g.world, args1, outPath⟩
          ⟨res.err, res.state,
            .generate tableName :: .materialize moduleName codes st.outPath :: res.trace⟩

/-- The outcome of a `RunE` closure: the error returned (`none` for nil), the
world afterwards, the calls made and the lines printed. -/
structure RunResult (W E : Type) where
  err : Option (GoError E)
  world : W
  trace : List Event
  stdout : List Str

/-- The part of a `RunE` closure after the module name is settled: split the
table names, run the loop, print the success line. -/
def runTables {W E : Type} (gen : Args → W → Except E Codes × Args × W)
    (mat : Str → Codes → Str → W → GenResult W E) (kind : Str) (moduleName : Str)
    (dbTables : Str) (st : LoopState W) : RunResult W E :=
  let tableNames := splitComma dbTables
  let res := tableLoop gen mat moduleName tableNames st
  match res.err with
  | some e => ⟨some e, res.state.world, res.trace, []⟩
  | none =>
    ⟨none, res.state.world, res.trace,
      ["generate '".toList ++ kind ++ "' codes successfully, out = ".toList
        ++ res.state.outPath ++ "\n\n".toList]⟩

/-- The variables of `DaoCommand` that the flags fill in. -/
structure DaoFlags where
  moduleName : Str
  outPath : Str
  dbTables : Str
  isIncludeInitDB : Bool
  sqlArgs : Args

/-- The error text of the `dao` command for a missing module name. -/
def daoModuleNameError (parentName : Str) : Str :=
  "required flag(s) \"module-name\" not set, use \"sponge ".toList ++ parentName
    ++ " dao -h\" for help".toList

/-- The closure `RunE` of `DaoCommand`. -/
def DaoCommand.RunE {W E : Type} (env : Env W E) (parentName : Str) (f : DaoFlags) (w : W) :
    RunResult W E :=
  let mdName := (env.getNamesFromOutDir f.outPath w).1
  if mdName ≠ [] then
    runTables env.Generate (fun m c o => runGenDaoCommand env m f.isIncludeInitDB c o)
      "dao".toList mdName f.dbTables ⟨w, f.sqlArgs, f.outPath⟩
  else if f.moduleName = [] then
    ⟨some (.msg (daoModuleNameError parentName)), w, [], []⟩
  else
    runTables env.Generate (fun m c o => runGenDaoCommand env m f.isIncludeInitDB c o)
      "dao".toList f.moduleName f.dbTables ⟨w, f.sqlArgs, f.outPath⟩

/-! ## handler.go -/

/-- The function `addHandlerFields` of handler.go; `rnd` is the number the
random source hands to `rand.Intn(100)`, which brings it into `[0, 100)`. -/
def addHandlerFields {W E : Type} (n : Names) (adjustmentOfIDType : Str → Str) (rnd : Nat)
    (moduleName : Str) (r : Replacer W E) (w : W) (codes : Codes) : List Field :=
  let fields : List Field := []
  let fields := fields ++ deleteFieldsMark r w n.modelFile startMark endMark
  let fields := fields ++ deleteFieldsMark r w n.daoFile startMark endMark
  let fields := fields ++ deleteFieldsMark r w n.daoTestFile startMark endMark
  let fields := fields ++ deleteFieldsMark r w n.handlerFile startMark endMark
  let fields := fields ++ deleteFieldsMark r w n.handlerTestFile startMark endMark
  let fields := fields ++ [
    { Old := n.modelFileMark, New := codes.get n.CodeTypeModel, IsCaseSensitive := false },
    { Old := n.daoFileMark, New := codes.get n.CodeTypeDAO, IsCaseSensitive := false },
    { Old := n.handlerFileMark, New := adjustmentOfIDType (codes.get n.CodeTypeHandler),
      IsCaseSensitive := false },
    { Old := n.selfPackageName ++ "/".toList ++ r.GetSourcePath w, New := moduleName,
      IsCaseSensitive := false },
    { Old := "github.com/zhufuyi/sponge".toList, New := moduleName, IsCaseSensitive := false },
    { Old := "userExampleNO       = 1".toList,
      New := "userExampleNO = ".toList ++ Nat.toDigits 10 (rnd % 100),
      IsCaseSensitive := false },
    { Old := moduleName ++ "/pkg".toList, New := "github.com/zhufuyi/sponge/pkg".toList,
      IsCaseSensitive := false },
    { Old := "UserExample".toList, New := codes.get n.TableName, IsCaseSensitive := true }]
  fields

/-- The function `runGenHandlerCommand` of handler.go; `rnd` is the number
drawn inside `addHandlerFields`. -/
def runGenHandlerCommand {W E : Type} (env : Env W E) (rnd : Nat) (moduleName : Str)
    (codes : Codes) (outPath : Str) (w : W) : GenResult W E :=
  let subTplName := "handler".toList
  match env.Replacers env.names.TplNameSponge with
  | none => ⟨[], some (.msg "replacer is nil".toList), w, []⟩
  | some r =>
    let subDirs := ["internal/model".toList, "internal/cache".toList, "internal/dao".toList,
      "internal/ecode".toList, "internal/handler".toList, "internal/routers".toList,
      "internal/types".toList]
    let ignoreDirs : List Str := []
    let ignoreFiles := ["systemCode_http.go".toList, "systemCode_rpc.go".toList,
      "userExample_rpc.go".toList,
      "init.go".toList, "init_test.go".toList,
      "routers.go".toList, "routers_test.go".toList, "routers_pbExample.go".toList,
      "routers_pbExample_test.go".toList, "userExample_service.pb.go".toList,
      "swagger_types.go".toList]
    let w1 := r.SetSubDirsAndFiles subDirs w
    let w2 := r.SetIgnoreSubDirs ignoreDirs w1
    let w3 := r.SetIgnoreSubFiles ignoreFiles w2
    let fields := addHandlerFields env.names env.adjustmentOfIDType rnd moduleName r w3 codes
    let w4 := r.SetReplacementFields fields w3
    let w5 := (r.SetOutputDir outPath subTplName w4).2
    let calls := [RCall.SetSubDirsAndFiles subDirs, .SetIgnoreSubDirs ignoreDirs,
      .SetIgnoreSubFiles ignoreFiles, .SetReplacementFields fields,
      .SetOutputDir outPath subTplName, .SaveFiles]
    match r.SaveFiles w5 with
    | (some err, w6) => ⟨[], some (.ext err), w6, calls⟩
    | (none, w6) => ⟨r.GetOutputDir w6, none, w6, calls⟩

/-- The variables of `HandlerCommand` that the flags fill in. -/
structure HandlerFlags where
  moduleName : Str
  outPath : Str
  dbTables : Str
  sqlArgs : Args

/-- The error text of the `handler` command for a missing module name. -/
def handlerModuleNameError : Str :=
  "required flag(s) \"module-name\" not set, use \"sponge web handler -h\" for help".toList

/-- The closure `RunE` of `HandlerCommand`; `rnd` gives the number drawn by the
random source in the materialization of each call. -/
def HandlerCommand.RunE {W E : Type} (env : Env W E) (rnd : W → Nat) (f : HandlerFlags) (w : W) :
    RunResult W E :=
  let mdName := (env.getNamesFromOutDir f.outPath w).1
  if mdName ≠ [] then
    runTables env.Generate (fun m c o w1 => runGenHandlerCommand env (rnd w1) m c o w1)
      "handler".toList mdName f.dbTables ⟨w, f.sqlArgs, f.outPath⟩
  else if f.moduleName = [] then
    ⟨some (.msg handlerModuleNameError), w, [], []⟩
  else
    runTables env.Generate (fun m c o w1 => runGenHandlerCommand env (rnd w1) m c o w1)
      "handler".toList f.moduleName f.dbTables ⟨w, f.sqlArgs, f.outPath⟩


/-! ## Concrete collaborators, for evaluating the commands -/

/-- Names and marks for the concrete runs below. -/
def demoNames : Names :=
  { TplNameSponge := "sponge".toList
    modelFile := "internal/model/userExample.go".toList
    modelFileMark := "// todo generate model codes to here".toList
    daoFile := "internal/dao/userExample.go".toList
    daoFileMark := "// todo generate the update fields code to here".toList
    daoTestFile := "internal/dao/userExample_test.go".toList
    handlerFile := "internal/handler/userExample.go".toList
    handlerFileMark := "// todo generate the request and response struct to here".toList
    handlerTestFile := "internal/handler/userExample_test.go".toList
    selfPackageName := "github.com/zhufuyi/sponge".toList
    CodeTypeModel := "model".toList
    CodeTypeDAO := "dao".toList
    CodeTypeHandler := "handler".toList
    TableName := "tableName".toList }

/-- A replacer over a world that counts the runs of `SaveFiles` that wrote
files.  Every template file reads as `content`; `SetOutputDir` reports an error
when `setFails` is set; `SaveFiles` writes unless `saveFails` is set. -/
def demoReplacer (content : Str) (setFails saveFails : Bool) : Replacer Nat Str :=
  { SetReplacementFields := fun _ w => w
    SetSubDirsAndFiles := fun _ w => w
    SetIgnoreSubDirs := fun _ w => w
    SetIgnoreSubFiles := fun _ w => w
    SetOutputDir := fun _ _ w => (if setFails then some "exists".toList else none, w)
    GetOutputDir := fun _ => "dao_150405".toList
    GetSourcePath := fun _ => "sponge".toList
    SaveFiles := fun w => if saveFails then (some "save".toList, w) else (none, w + 1)
    ReadFile := fun _ _ => .ok content }

/-- Collaborators for the concrete runs: `getNamesFromOutDir` finds the module
name `md`, `Generate` fails for the table `bad` and gives one code map for
every other table. -/
def demoEnv (md : Str) (r : Option (Replacer Nat Str)) : Env Nat Str :=
  { names := demoNames
    getNamesFromOutDir := fun _ _ => (md, [])
    Generate := fun a w =>
      if a.DBTable = "bad".toList then (.error "no such table".toList, a, w)
      else (.ok [("tableName".toList, a.DBTable)], a, w)
    Replacers := fun _ => r
    adjustmentOfIDType := fun s => s }

/-- The argument record both commands start from, with the flags of a run. -/
def demoArgs : Args :=
  { Package := "model".toList, JSONTag := true, GormType := true,
    DBDsn := "root:123456@(192.168.3.37:3306)/test".toList, DBTable := [], IsEmbed := true }

/-- The table `t`, processed by the loop from the variables `st`, fails with
the error `e` after the calls `tail`: either `sql2code.Generate` returns `e`,
or it returns codes and the materialization `mat` returns `e`. -/
def FailsAt {W E : Type} (gen : Args → W → Except E Codes × Args × W)
    (mat : Str → Codes → Str → W → GenResult W E) (moduleName t : Str) (st : LoopState W)
    (e : GoError E) (tail : List Event) : Prop :=
  (∃ e0 a1 w1, gen { st.sqlArgs with DBTable := t } st.world = (.error e0, a1, w1) ∧
      e = .ext e0 ∧ tail = [.generate t]) ∨
  (∃ codes a1 w1, gen { st.sqlArgs with DBTable := t } st.world = (.ok codes, a1, w1) ∧
      (mat moduleName codes st.outPath w1).err = some e ∧
      tail = [.generate t, .materialize moduleName codes st.outPath])

/-- The lines of the template `internal/handler/userExample_test.go` before its
marked block: line 115 and the indentation of line 116. -/
def tplBefore : Str :=
    "\tt.Logf(\"%+v\", result)\n".toList ++
    "\t".toList

/-- The text between the two marks of the template
`internal/handler/userExample_test.go`: from the end of line 116 to the
indentation of line 138. -/
def tplBlock : Str :=
    "\n".toList ++
    "\tresult = &gohttp.StdResult\x7b\x7d\n".toList ++
    "\ttestData = &types.CreateUserExampleRequest\x7b\n".toList ++
    "\t\tName:     \"foo\",\n".toList ++
    "\t\tPassword: \"f447b20a7fcbf53a5d5be013ea0b15af\",\n".toList ++
    "\t\tEmail:    \"foo@bar.com\",\n".toList ++
    "\t\tPhone:    \"+8616000000001\",\n".toList ++
    "\t\tAvatar:   \"http://foo/1.jpg\",\n".toList ++
    "\t\tAge:      10,\n".toList ++
    "\t\tGender:   1,\n".toList ++
    "\t\x7d\n".toList ++
    "\terr = gohttp.Post(result, h.GetRequestURL(\"Create\"), testData)\n".toList ++
    "\tif err != nil \x7b\n".toList ++
    "\t\tt.Fatal(err)\n".toList ++
    "\t\x7d\n".toList ++
    "\tt.Logf(\"%+v\", result)\n".toList ++
    "\n".toList ++
    "\th.MockDao.SQLMock.ExpectBegin()\n".toList ++
    "\th.MockDao.SQLMock.ExpectCommit()\n".toList ++
    "\tresult = &gohttp.StdResult\x7b\x7d\n".toList ++
    "\terr = gohttp.Post(result, h.GetRequestURL(\"Create\"), testData)\n".toList ++
    "\tassert.Error(t, err)\n".toList ++
    "\t".toList

/-- The lines of the template `internal/handler/userExample_test.go` after its
marked block: the end of line 138 and line 139. -/
def tplAfter : Str :=
    "\n".toList ++
    "\x7d\n".toList

/-- The line a `RunE` closure prints on success, for the command `kind` and the
path `out`. -/
def successLine (kind out : Str) : Str :=
  "generate '".toList ++ kind ++ "' codes successfully, out = ".toList ++ out ++ "\n\n".toList

/-- A replacer over the count of writing runs of `SaveFiles` whose
`GetOutputDir` gives the empty string after the first run and `dao_150405`
from the second run on. -/
def lateDirReplacer : Replacer Nat Str :=
  { SetReplacementFields := fun _ w => w
    SetSubDirsAndFiles := fun _ w => w
    SetIgnoreSubDirs := fun _ w => w
    SetIgnoreSubFiles := fun _ w => w
    SetOutputDir := fun _ _ w => (none, w)
    GetOutputDir := fun w => if w ≤ 1 then [] else "dao_150405".toList
    GetSourcePath := fun _ => "sponge".toList
    SaveFiles := fun w => (none, w + 1)
    ReadFile := fun _ _ => .ok [] }

/-- The scan behind `pkgKeepRewrite`; `skip` counts the characters of an
occurrence that are still to be passed over. -/
def pkgKeepScan (M : Str) : Nat → Str → Str
  | _, [] => []
  | skip + 1, _ :: cs => pkgKeepScan M skip cs
  | 0, c :: cs =>
    if (spongeRoot ++ "/pkg".toList).isPrefixOf (c :: cs) then
      spongeRoot ++ "/pkg".toList ++ pkgKeepScan M (spongeRoot.length + 4 - 1) cs
    else if spongeRoot.isPrefixOf (c :: cs) then
      M ++ pkgKeepScan M (spongeRoot.length - 1) cs
    else c :: pkgKeepScan M 0 cs

/-- The result the specification describes for the module rewrite, in its own
words: the content with every occurrence of `github.com/zhufuyi/sponge` that is
not immediately followed by `/pkg` replaced by the module name, and every
occurrence of `github.com/zhufuyi/sponge/pkg` left as it was.  It is the text
the two rules of the code are compared with. -/
def pkgKeepRewrite (M c : Str) : Str := pkgKeepScan M 0 c

/-- The two rules of `addDAOFields` and `addHandlerFields` that rewrite the
module path and restore the library path, in the order of the lists. -/
def moduleRules (M : Str) : List Field :=
  [{ Old := "github.com/zhufuyi/sponge".toList, New := M, IsCaseSensitive := false },
   { Old := M ++ "/pkg".toList, New := "github.com/zhufuyi/sponge/pkg".toList,
     IsCaseSensitive := false }]

/-- An occurrence of `old` in `X ++ rest` starts inside `X` and ends beyond it. -/
def straddles (old X rest : Str) : Bool :=
  (List.range X.length).any (fun i =>
    decide (X.length < i + old.length) && old.isPrefixOf ((X ++ rest).drop i))

/-- An occurrence of `old` in `m ++ rest` starts inside `m`. -/
def startsWithin (old m rest : Str) : Bool :=
  (List.range m.length).any (fun i => old.isPrefixOf ((m ++ rest).drop i))

/-- The rules `fs`, applied in list order as literal replace-all to
`X ++ m ++ Y`, leave the part `m` alone: no rule has an empty match text, and
no rule finds, in the buffer as the rules before it left it, a match that
overlaps `m`. -/
def leftAlone : List Field → Str → Str → Str → Bool
  | [], _, _, _ => true
  | f :: fs, X, m, Y =>
    !f.Old.isEmpty && !straddles f.Old X (m ++ Y) && !startsWithin f.Old m Y
      && leftAlone fs (replaceAll X f.Old f.New) m (replaceAll Y f.Old f.New)

/-- The rules of `addDAOFields` that stand before the rule of the template
root: the deletion rules, the two insertions and the `selfPackageName` rule. -/
def daoRulesBefore {W E : Type} (n : Names) (moduleName : Str) (r : Replacer W E) (w : W)
    (codes : Codes) : List Field :=
  deleteFieldsMark r w n.modelFile startMark endMark
    ++ deleteFieldsMark r w n.daoFile startMark endMark
    ++ deleteFieldsMark r w n.daoTestFile startMark endMark
    ++ [{ Old := n.modelFileMark, New := codes.get n.CodeTypeModel, IsCaseSensitive := false },
        { Old := n.daoFileMark, New := codes.get n.CodeTypeDAO, IsCaseSensitive := false },
        { Old := n.selfPackageName ++ "/".toList ++ r.GetSourcePath w, New := moduleName,
          IsCaseSensitive := false }]

/-- The rules of `addHandlerFields` that stand before the rule of the template
root: the deletion rules, the three insertions and the `selfPackageName` rule. -/
def handlerRulesBefore {W E : Type} (n : Names) (adjustmentOfIDType : Str → Str)
    (moduleName : Str) (r : Replacer W E) (w : W) (codes : Codes) : List Field :=
  deleteFieldsMark r w n.modelFile startMark endMark
    ++ deleteFieldsMark r w n.daoFile startMark endMark
    ++ deleteFieldsMark r w n.daoTestFile startMark endMark
    ++ deleteFieldsMark r w n.handlerFile startMark endMark
    ++ deleteFieldsMark r w n.handlerTestFile startMark endMark
    ++ [{ Old := n.modelFileMark, New := codes.get n.CodeTypeModel, IsCaseSensitive := false },
        { Old := n.daoFileMark, New := codes.get n.CodeTypeDAO, IsCaseSensitive := false },
        { Old := n.handlerFileMark, New := adjustmentOfIDType (codes.get n.CodeTypeHandler),
          IsCaseSensitive := false },
        { Old := n.selfPackageName ++ "/".toList ++ r.GetSourcePath w, New := moduleName,
          IsCaseSensitive := false }]

/-- The rule of both lists that restores the library path. -/
def pkgRule (moduleName : Str) : Field :=
  { Old := moduleName ++ "/pkg".toList, New := "github.com/zhufuyi/sponge/pkg".toList,
    IsCaseSensitive := false }

/-- The last rule of both lists, the rename of the placeholder type. -/
def renameRule (n : Names) (codes : Codes) : Field :=
  { Old := "UserExample".toList, New := codes.get n.TableName, IsCaseSensitive := true }

/-- The rule of `addHandlerFields` that carries the random number; `rnd` is the
number the random source hands to `rand.Intn(100)`. -/
def numberRule (rnd : Nat) : Field :=
  { Old := "userExampleNO       = 1".toList,
    New := "userExampleNO = ".toList ++ Nat.toDigits 10 (rnd % 100), IsCaseSensitive := false }
/-! ## Lemmas on the materialization functions -/

section Lemmas

variable {W E : Type}

/-- The error of `runGenDaoCommand`: the nil-replacer error, or the error of `SaveFiles`. -/
theorem runGenDaoCommand_err_cases (env : Env W E) (m : Str) (i : Bool) (c : Codes) (o : Str)
    (w : W) :
    (runGenDaoCommand env m i c o w).err = none ∨
    (runGenDaoCommand env m i c o w).err = some (.msg "r is nil".toList) ∨
    ∃ e, (runGenDaoCommand env m i c o w).err = some (.ext e) := by
  unfold runGenDaoCommand
  cases env.Replacers env.names.TplNameSponge with
  | none => exact Or.inr (Or.inl rfl)
  | some r =>
    simp only
    split
    · rename_i err w6 _
      exact Or.inr (Or.inr ⟨err, rfl⟩)
    · exact Or.inl rfl

theorem runGenHandlerCommand_err_cases (env : Env W E) (rnd : Nat) (m : Str) (c : Codes)
    (o : Str) (w : W) :
    (runGenHandlerCommand env rnd m c o w).err = none ∨
    (runGenHandlerCommand env rnd m c o w).err = some (.msg "replacer is nil".toList) ∨
    ∃ e, (runGenHandlerCommand env rnd m c o w).err = some (.ext e) := by
  unfold runGenHandlerCommand
  cases env.Replacers env.names.TplNameSponge with
  | none => exact Or.inr (Or.inl rfl)
  | some r =>
    simp only
    split
    · rename_i err w6 _
      exact Or.inr (Or.inr ⟨err, rfl⟩)
    · exact Or.inl rfl

theorem daoModuleNameError_ne (p : Str) : "r is nil".toList ≠ daoModuleNameError p := by
  intro h
  have h2 : ['r', ' '] = ['r', 'e'] := congrArg (List.take 2) h
  exact absurd h2 (by decide)

theorem handlerModuleNameError_ne : "replacer is nil".toList ≠ handlerModuleNameError := by
  decide

end Lemmas

section LoopLemmas

variable {W E : Type}

/-- Every materialization call of the loop gets the module name the loop was given. -/
theorem tableLoop_moduleName (gen : Args → W → Except E Codes × Args × W)
    (mat : Str → Codes → Str → W → GenResult W E) (M : Str) :
    ∀ (segs : List Str) (st : LoopState W) (m : Str) (c : Codes) (o : Str),
      Event.materialize m c o ∈ (tableLoop gen mat M segs st).trace → m = M := by
  intro segs
  induction segs with
  | nil => intro st m c o h; simp [tableLoop] at h
  | cons t rest ih =>
    intro st m c o h
    unfold tableLoop at h
    split at h
    · exact ih st m c o h
    · split at h
      · simp at h
      · simp only at h
        split at h
        · simp at h
          exact h.1
        · simp at h
          rcases h with h | h
          · exact h.1
          · exact ih _ m c o h

/-- An error of the loop is an error of `Generate` or an error of the materialization. -/
theorem tableLoop_err (gen : Args → W → Except E Codes × Args × W)
    (mat : Str → Codes → Str → W → GenResult W E) (M : Str) (P : GoError E → Prop)
    (hext : ∀ e, P (.ext e))
    (hmat : ∀ m c o w e, (mat m c o w).err = some e → P e) :
    ∀ (segs : List Str) (st : LoopState W) (e : GoError E),
      (tableLoop gen mat M segs st).err = some e → P e := by
  intro segs
  induction segs with
  | nil => intro st e h; simp [tableLoop] at h
  | cons t rest ih =>
    intro st e h
    unfold tableLoop at h
    split at h
    · exact ih st e h
    · split at h
      · simp at h
        exact h ▸ hext _
      · simp only at h
        split at h
        · rename_i e1 he1
          simp at h
          exact h ▸ hmat _ _ _ _ _ he1
        · exact ih _ e h

/-- When the loop ends without error it has made one Generate-then-materialize
run per non-empty name, in the order of the names. -/
theorem tableLoop_ok (gen : Args → W → Except E Codes × Args × W)
    (mat : Str → Codes → Str → W → GenResult W E) (M : Str) :
    ∀ (segs : List Str) (st : LoopState W),
      (tableLoop gen mat M segs st).err = none →
      ∃ runs : List (Str × Codes × Str),
        (tableLoop gen mat M segs st).trace
          = runs.flatMap (fun r => [Event.generate r.1, Event.materialize M r.2.1 r.2.2]) ∧
        runs.map Prod.fst = segs.filter (fun s => decide (s ≠ [])) := by
  intro segs
  induction segs with
  | nil => intro st _; exact ⟨[], rfl, rfl⟩
  | cons t rest ih =>
    intro st h
    unfold tableLoop at h ⊢
    split at h
    · rename_i ht
      obtain ⟨runs, htr, hruns⟩ := ih st h
      refine ⟨runs, ?_, by simp [ht, hruns]⟩
      simp only [ht, if_true]
      exact htr
    · rename_i ht
      simp only [ht, if_false]
      split at h
      · simp at h
      · rename_i codes a1 w1 hg
        simp only [hg]
        simp only at h
        split at h
        · simp at h
        · rename_i hm
          simp only [hm]
          obtain ⟨runs, htr, hruns⟩ := ih _ h
          refine ⟨(t, codes, st.outPath) :: runs, ?_, ?_⟩
          · simp [htr]
          · simp [ht, hruns]

/-- A list of empty names makes the loop do nothing. -/
theorem tableLoop_all_empty (gen : Args → W → Except E Codes × Args × W)
    (mat : Str → Codes → Str → W → GenResult W E) (M : Str) :
    ∀ (segs : List Str) (st : LoopState W), (∀ s ∈ segs, s = []) →
      tableLoop gen mat M segs st = ⟨none, st, []⟩ := by
  intro segs
  induction segs with
  | nil => intro st _; rfl
  | cons t rest ih =>
    intro st h
    have ht : t = [] := h t (List.mem_cons_self _ _)
    rw [tableLoop]
    simp only [ht, if_true]
    exact ih st (fun s hs => h s (List.mem_cons_of_mem _ hs))

end LoopLemmas

section RunLemmas

variable {W E : Type}

theorem runTables_trace (gen : Args → W → Except E Codes × Args × W)
    (mat : Str → Codes → Str → W → GenResult W E) (kind M dbTables : Str) (st : LoopState W) :
    (runTables gen mat kind M dbTables st).trace
      = (tableLoop gen mat M (splitComma dbTables) st).trace := by
  unfold runTables
  simp only
  split <;> rfl

theorem runTables_err (gen : Args → W → Except E Codes × Args × W)
    (mat : Str → Codes → Str → W → GenResult W E) (kind M dbTables : Str) (st : LoopState W) :
    (runTables gen mat kind M dbTables st).err
      = (tableLoop gen mat M (splitComma dbTables) st).err := by
  unfold runTables
  simp only
  split
  · rename_i e he; simp [he]
  · rename_i he; simp [he]

theorem runTables_stdout_of_err (gen : Args → W → Except E Codes × Args × W)
    (mat : Str → Codes → Str → W → GenResult W E) (kind M dbTables : Str) (st : LoopState W)
    (e : GoError E) (h : (tableLoop gen mat M (splitComma dbTables) st).err = some e) :
    (runTables gen mat kind M dbTables st).stdout = [] := by
  unfold runTables
  simp only [h]

theorem runTables_stdout_of_ok (gen : Args → W → Except E Codes × Args × W)
    (mat : Str → Codes → Str → W → GenResult W E) (kind M dbTables : Str) (st : LoopState W)
    (h : (tableLoop gen mat M (splitComma dbTables) st).err = none) :
    (runTables gen mat kind M dbTables st).stdout
      = ["generate '".toList ++ kind ++ "' codes successfully, out = ".toList
          ++ (tableLoop gen mat M (splitComma dbTables) st).state.outPath ++ "\n\n".toList] := by
  unfold runTables
  simp only [h]

/-- The loop of the `dao` command never returns the missing-module-name error. -/
theorem dao_loop_err_ne (env : Env W E) (p : Str) (i : Bool) (M dbTables : Str)
    (st : LoopState W) :
    (runTables env.Generate (fun m c o => runGenDaoCommand env m i c o) "dao".toList M
      dbTables st).err ≠ some (.msg (daoModuleNameError p)) := by
  rw [runTables_err]
  intro h
  have := tableLoop_err env.Generate (fun m c o => runGenDaoCommand env m i c o) M
    (fun e => e ≠ .msg (daoModuleNameError p)) (by intro e; simp)
    (by
      intro m c o w e he
      rcases runGenDaoCommand_err_cases env m i c o w with h1 | h1 | ⟨e1, h1⟩
      · simp [h1] at he
      · simp only [h1, Option.some.injEq] at he
        subst he
        intro h2
        exact daoModuleNameError_ne p (GoError.msg.inj h2)
      · simp only [h1, Option.some.injEq] at he
        subst he
        simp)
    _ _ _ h
  exact this rfl

/-- The loop of the `handler` command never returns the missing-module-name error. -/
theorem handler_loop_err_ne (env : Env W E) (rnd : W → Nat) (M dbTables : Str)
    (st : LoopState W) :
    (runTables env.Generate (fun m c o w1 => runGenHandlerCommand env (rnd w1) m c o w1)
      "handler".toList M dbTables st).err ≠ some (.msg handlerModuleNameError) := by
  rw [runTables_err]
  intro h
  have := tableLoop_err env.Generate
    (fun m c o w1 => runGenHandlerCommand env (rnd w1) m c o w1) M
    (fun e => e ≠ .msg handlerModuleNameError) (by intro e; simp)
    (by
      intro m c o w e he
      rcases runGenHandlerCommand_err_cases env (rnd w) m c o w with h1 | h1 | ⟨e1, h1⟩
      · simp [h1] at he
      · simp only [h1, Option.some.injEq] at he
        subst he
        intro h2
        exact handlerModuleNameError_ne (GoError.msg.inj h2)
      · simp only [h1, Option.some.injEq] at he
        subst he
        simp)
    _ _ _ h
  exact this rfl

end RunLemmas

/-! ## Module-name resolution -/

/-- C1. Module-name resolution in both `RunE` closures: every materialization
call gets the name returned by `getNamesFromOutDir(outPath)` when that name is
not empty and the value of `--module-name` otherwise; the closure returns the
`required flag(s) "module-name" not set` error exactly when both are empty, and
then it has called neither `sql2code.Generate` nor the materialization for any
table, has printed nothing and has left the world as it was. -/
theorem module_name_resolution {W E : Type} (env : Env W E) (parentName : Str) (rnd : W → Nat)
    (fd : DaoFlags) (fh : HandlerFlags) (w : W) :
    ((∀ m c o, Event.materialize m c o ∈ (DaoCommand.RunE env parentName fd w).trace →
        m = if (env.getNamesFromOutDir fd.outPath w).1 ≠ []
              then (env.getNamesFromOutDir fd.outPath w).1 else fd.moduleName) ∧
     ((DaoCommand.RunE env parentName fd w).err = some (.msg (daoModuleNameError parentName)) ↔
        (env.getNamesFromOutDir fd.outPath w).1 = [] ∧ fd.moduleName = []) ∧
     ((env.getNamesFromOutDir fd.outPath w).1 = [] ∧ fd.moduleName = [] →
        (DaoCommand.RunE env parentName fd w).trace = [] ∧
        (DaoCommand.RunE env parentName fd w).stdout = [] ∧
        (DaoCommand.RunE env parentName fd w).world = w)) ∧
    ((∀ m c o, Event.materialize m c o ∈ (HandlerCommand.RunE env rnd fh w).trace →
        m = if (env.getNamesFromOutDir fh.outPath w).1 ≠ []
              then (env.getNamesFromOutDir fh.outPath w).1 else fh.moduleName) ∧
     ((HandlerCommand.RunE env rnd fh w).err = some (.msg handlerModuleNameError) ↔
        (env.getNamesFromOutDir fh.outPath w).1 = [] ∧ fh.moduleName = []) ∧
     ((env.getNamesFromOutDir fh.outPath w).1 = [] ∧ fh.moduleName = [] →
        (HandlerCommand.RunE env rnd fh w).trace = [] ∧
        (HandlerCommand.RunE env rnd fh w).stdout = [] ∧
        (HandlerCommand.RunE env rnd fh w).world = w)) := by
  constructor
  · by_cases h1 : (env.getNamesFromOutDir fd.outPath w).1 = []
    · by_cases h2 : fd.moduleName = []
      · have hr : DaoCommand.RunE env parentName fd w
            = ⟨some (.msg (daoModuleNameError parentName)), w, [], []⟩ := by
          simp [DaoCommand.RunE, h1, h2]
        rw [hr]
        simp [h1, h2]
      · have hr : DaoCommand.RunE env parentName fd w
            = runTables env.Generate (fun m c o => runGenDaoCommand env m fd.isIncludeInitDB c o)
                "dao".toList fd.moduleName fd.dbTables ⟨w, fd.sqlArgs, fd.outPath⟩ := by
          simp [DaoCommand.RunE, h1, h2]
        rw [hr]
        refine ⟨?_, ?_, ?_⟩
        · intro m c o hm
          rw [runTables_trace] at hm
          simpa [h1] using tableLoop_moduleName _ _ _ _ _ m c o hm
        · constructor
          · intro h; exact absurd h (dao_loop_err_ne env parentName _ _ _ _)
          · intro h; exact absurd h.2 h2
        · intro h; exact absurd h.2 h2
    · have hr : DaoCommand.RunE env parentName fd w
          = runTables env.Generate (fun m c o => runGenDaoCommand env m fd.isIncludeInitDB c o)
              "dao".toList (env.getNamesFromOutDir fd.outPath w).1 fd.dbTables
              ⟨w, fd.sqlArgs, fd.outPath⟩ := by
        simp [DaoCommand.RunE, h1]
      rw [hr]
      refine ⟨?_, ?_, ?_⟩
      · intro m c o hm
        rw [runTables_trace] at hm
        simpa [h1] using tableLoop_moduleName _ _ _ _ _ m c o hm
      · constructor
        · intro h; exact absurd h (dao_loop_err_ne env parentName _ _ _ _)
        · intro h; exact absurd h.1 h1
      · intro h; exact absurd h.1 h1
  · by_cases h1 : (env.getNamesFromOutDir fh.outPath w).1 = []
    · by_cases h2 : fh.moduleName = []
      · have hr : HandlerCommand.RunE env rnd fh w
            = ⟨some (.msg handlerModuleNameError), w, [], []⟩ := by
          simp [HandlerCommand.RunE, h1, h2]
        rw [hr]
        simp [h1, h2]
      · have hr : HandlerCommand.RunE env rnd fh w
            = runTables env.Generate
                (fun m c o w1 => runGenHandlerCommand env (rnd w1) m c o w1)
                "handler".toList fh.moduleName fh.dbTables ⟨w, fh.sqlArgs, fh.outPath⟩ := by
          simp [HandlerCommand.RunE, h1, h2]
        rw [hr]
        refine ⟨?_, ?_, ?_⟩
        · intro m c o hm
          rw [runTables_trace] at hm
          simpa [h1] using tableLoop_moduleName _ _ _ _ _ m c o hm
        · constructor
          · intro h; exact absurd h (handler_loop_err_ne env rnd _ _ _)
          · intro h; exact absurd h.2 h2
        · intro h; exact absurd h.2 h2
    · have hr : HandlerCommand.RunE env rnd fh w
          = runTables env.Generate
              (fun m c o w1 => runGenHandlerCommand env (rnd w1) m c o w1)
              "handler".toList (env.getNamesFromOutDir fh.outPath w).1 fh.dbTables
              ⟨w, fh.sqlArgs, fh.outPath⟩ := by
        simp [HandlerCommand.RunE, h1]
      rw [hr]
      refine ⟨?_, ?_, ?_⟩
      · intro m c o hm
        rw [runTables_trace] at hm
        simpa [h1] using tableLoop_moduleName _ _ _ _ _ m c o hm
      · constructor
        · intro h; exact absurd h (handler_loop_err_ne env rnd _ _ _)
        · intro h; exact absurd h.1 h1
      · intro h; exact absurd h.1 h1

/-! ## Multi-table processing -/

/-- C2. Multi-table processing order: when a `RunE` closure returns nil (no
step failed), the calls it made are exactly one `Generate` followed by one
materialization per non-empty comma-separated segment of `--db-table`, in the
order of the segments, and it printed the success line once; when the module
name is settled and every segment is empty it makes no call and returns nil. -/
theorem multi_table_order {W E : Type} (env : Env W E) (parentName : Str) (rnd : W → Nat)
    (fd : DaoFlags) (fh : HandlerFlags) (w : W) :
    ((DaoCommand.RunE env parentName fd w).err = none →
      (∃ (M : Str) (runs : List (Str × Codes × Str)),
        (DaoCommand.RunE env parentName fd w).trace
          = runs.flatMap (fun r => [Event.generate r.1, Event.materialize M r.2.1 r.2.2]) ∧
        runs.map Prod.fst = (splitComma fd.dbTables).filter (fun s => decide (s ≠ []))) ∧
      (DaoCommand.RunE env parentName fd w).stdout.length = 1) ∧
    (((env.getNamesFromOutDir fd.outPath w).1 ≠ [] ∨ fd.moduleName ≠ []) →
      (∀ s ∈ splitComma fd.dbTables, s = []) →
      (DaoCommand.RunE env parentName fd w).err = none ∧
      (DaoCommand.RunE env parentName fd w).trace = []) ∧
    ((HandlerCommand.RunE env rnd fh w).err = none →
      (∃ (M : Str) (runs : List (Str × Codes × Str)),
        (HandlerCommand.RunE env rnd fh w).trace
          = runs.flatMap (fun r => [Event.generate r.1, Event.materialize M r.2.1 r.2.2]) ∧
        runs.map Prod.fst = (splitComma fh.dbTables).filter (fun s => decide (s ≠ []))) ∧
      (HandlerCommand.RunE env rnd fh w).stdout.length = 1) ∧
    (((env.getNamesFromOutDir fh.outPath w).1 ≠ [] ∨ fh.moduleName ≠ []) →
      (∀ s ∈ splitComma fh.dbTables, s = []) →
      (HandlerCommand.RunE env rnd fh w).err = none ∧
      (HandlerCommand.RunE env rnd fh w).trace = []) := by
  have key : ∀ (mat : Str → Codes → Str → W → GenResult W E) (kind M0 dbTables : Str)
      (st : LoopState W), (runTables env.Generate mat kind M0 dbTables st).err = none →
      (∃ (M : Str) (runs : List (Str × Codes × Str)),
        (runTables env.Generate mat kind M0 dbTables st).trace
          = runs.flatMap (fun r => [Event.generate r.1, Event.materialize M r.2.1 r.2.2]) ∧
        runs.map Prod.fst = (splitComma dbTables).filter (fun s => decide (s ≠ []))) ∧
      (runTables env.Generate mat kind M0 dbTables st).stdout.length = 1 := by
    intro mat kind M dbTables st h
    rw [runTables_err] at h
    obtain ⟨runs, htr, hruns⟩ := tableLoop_ok env.Generate mat M _ st h
    refine ⟨⟨M, runs, ?_, hruns⟩, ?_⟩
    · rw [runTables_trace]; exact htr
    · rw [runTables_stdout_of_ok _ _ _ _ _ _ h]; rfl
  have key2 : ∀ (mat : Str → Codes → Str → W → GenResult W E) (kind M dbTables : Str)
      (st : LoopState W), (∀ s ∈ splitComma dbTables, s = []) →
      (runTables env.Generate mat kind M dbTables st).err = none ∧
      (runTables env.Generate mat kind M dbTables st).trace = [] := by
    intro mat kind M dbTables st h
    rw [runTables_err, runTables_trace, tableLoop_all_empty env.Generate mat M _ st h]
    exact ⟨rfl, rfl⟩
  refine ⟨?_, ?_, ?_, ?_⟩
  · intro h
    unfold DaoCommand.RunE at h ⊢
    simp only at h ⊢
    split
    · rename_i h1; rw [if_pos h1] at h; exact key _ _ _ _ _ h
    · rename_i h1
      rw [if_neg h1] at h
      split
      · rename_i h2; rw [if_pos h2] at h; simp at h
      · rename_i h2; rw [if_neg h2] at h; exact key _ _ _ _ _ h
  · intro hm hall
    unfold DaoCommand.RunE
    simp only
    split
    · exact key2 _ _ _ _ _ hall
    · rename_i h1
      split
      · rename_i h2
        rcases hm with hm | hm
        · exact absurd hm h1
        · exact absurd h2 hm
      · exact key2 _ _ _ _ _ hall
  · intro h
    unfold HandlerCommand.RunE at h ⊢
    simp only at h ⊢
    split
    · rename_i h1; rw [if_pos h1] at h; exact key _ _ _ _ _ h
    · rename_i h1
      rw [if_neg h1] at h
      split
      · rename_i h2; rw [if_pos h2] at h; simp at h
      · rename_i h2; rw [if_neg h2] at h; exact key _ _ _ _ _ h
  · intro hm hall
    unfold HandlerCommand.RunE
    simp only
    split
    · exact key2 _ _ _ _ _ hall
    · rename_i h1
      split
      · rename_i h2
        rcases hm with hm | hm
        · exact absurd hm h1
        · exact absurd h2 hm
      · exact key2 _ _ _ _ _ hall

/-- The run `--db-table=t1,,t2 --module-name=foo` of both commands returns nil
after two runs, `t1` then `t2`, and the run `--db-table=,` after none. -/
theorem multi_table_order_witness :
    (DaoCommand.RunE (demoEnv [] (some (demoReplacer [] false false))) "micro".toList
        ⟨"foo".toList, [], "t1,,t2".toList, false, demoArgs⟩ 0).err = none ∧
    (DaoCommand.RunE (demoEnv [] (some (demoReplacer [] false false))) "micro".toList
        ⟨"foo".toList, [], "t1,,t2".toList, false, demoArgs⟩ 0).trace
      = [.generate "t1".toList,
         .materialize "foo".toList [("tableName".toList, "t1".toList)] [],
         .generate "t2".toList,
         .materialize "foo".toList [("tableName".toList, "t2".toList)] "dao_150405".toList] ∧
    (DaoCommand.RunE (demoEnv [] (some (demoReplacer [] false false))) "micro".toList
        ⟨"foo".toList, [], ",".toList, false, demoArgs⟩ 0).trace = [] ∧
    (HandlerCommand.RunE (demoEnv [] (some (demoReplacer [] false false))) (fun _ => 7)
        ⟨"foo".toList, [], ",".toList, demoArgs⟩ 0).err = none := by
  have h := multi_table_order (demoEnv [] (some (demoReplacer [] false false))) "micro".toList
    (fun _ => 7) ⟨"foo".toList, [], ",".toList, false, demoArgs⟩
    ⟨"foo".toList, [], ",".toList, demoArgs⟩ 0
  refine ⟨by decide, by decide, ?_, ?_⟩
  · exact (h.2.1 (Or.inr (by decide)) (by decide)).2
  · exact (h.2.2.2 (Or.inr (by decide)) (by decide)).1

/-! ## Fail-fast -/

section FailFast

variable {W E : Type}

theorem tableLoop_cons_empty (gen : Args → W → Except E Codes × Args × W)
    (mat : Str → Codes → Str → W → GenResult W E) (M : Str) (rest : List Str)
    (st : LoopState W) :
    tableLoop gen mat M ([] :: rest) st = tableLoop gen mat M rest st := by
  rw [tableLoop]; simp

theorem tableLoop_cons_genErr (gen : Args → W → Except E Codes × Args × W)
    (mat : Str → Codes → Str → W → GenResult W E) (M t : Str) (rest : List Str)
    (st : LoopState W) (ht : t ≠ []) (e : E) (a1 : Args) (w1 : W)
    (hg : gen { st.sqlArgs with DBTable := t } st.world = (.error e, a1, w1)) :
    tableLoop gen mat M (t :: rest) st
      = ⟨some (.ext e), ⟨w1, a1, st.outPath⟩, [.generate t]⟩ := by
  rw [tableLoop]; simp only [ht, if_false, hg]

theorem tableLoop_cons_matErr (gen : Args → W → Except E Codes × Args × W)
    (mat : Str → Codes → Str → W → GenResult W E) (M t : Str) (rest : List Str)
    (st : LoopState W) (ht : t ≠ []) (codes : Codes) (a1 : Args) (w1 : W) (e : GoError E)
    (hg : gen { st.sqlArgs with DBTable := t } st.world = (.ok codes, a1, w1))
    (hm : (mat M codes st.outPath w1).err = some e) :
    tableLoop gen mat M (t :: rest) st
      = ⟨some e, ⟨(mat M codes st.outPath w1).world, a1, st.outPath⟩,
          [.generate t, .materialize M codes st.outPath]⟩ := by
  rw [tableLoop]; simp only [ht, if_false, hg, hm]

theorem tableLoop_cons_ok (gen : Args → W → Except E Codes × Args × W)
    (mat : Str → Codes → Str → W → GenResult W E) (M t : Str) (rest : List Str)
    (st : LoopState W) (ht : t ≠ []) (codes : Codes) (a1 : Args) (w1 : W)
    (hg : gen { st.sqlArgs with DBTable := t } st.world = (.ok codes, a1, w1))
    (hm : (mat M codes st.outPath w1).err = none) :
    tableLoop gen mat M (t :: rest) st
      = ⟨(tableLoop gen mat M rest ⟨(mat M codes st.outPath w1).world, a1,
            if st.outPath = [] then (mat M codes st.outPath w1).dir else st.outPath⟩).err,
          (tableLoop gen mat M rest ⟨(mat M codes st.outPath w1).world, a1,
            if st.outPath = [] then (mat M codes st.outPath w1).dir else st.outPath⟩).state,
          .generate t :: .materialize M codes st.outPath ::
            (tableLoop gen mat M rest ⟨(mat M codes st.outPath w1).world, a1,
              if st.outPath = [] then (mat M codes st.outPath w1).dir
              else st.outPath⟩).trace⟩ := by
  rw [tableLoop]; simp only [ht, if_false, hg, hm]

/-- The loop over `pre ++ rest` is the loop over `pre` followed, when that one
ended without error, by the loop over `rest` from the variables it left. -/
theorem tableLoop_append (gen : Args → W → Except E Codes × Args × W)
    (mat : Str → Codes → Str → W → GenResult W E) (M : Str) (rest : List Str) :
    ∀ (pre : List Str) (st st1 : LoopState W) (tr : List Event),
      tableLoop gen mat M pre st = ⟨none, st1, tr⟩ →
      tableLoop gen mat M (pre ++ rest) st
        = ⟨(tableLoop gen mat M rest st1).err, (tableLoop gen mat M rest st1).state,
            tr ++ (tableLoop gen mat M rest st1).trace⟩ := by
  intro pre
  induction pre with
  | nil =>
    intro st st1 tr h
    simp only [tableLoop, LoopResult.mk.injEq] at h
    obtain ⟨-, h1, h2⟩ := h
    subst h1; subst h2
    rfl
  | cons t pre ih =>
    intro st st1 tr h
    rw [List.cons_append]
    by_cases ht : t = []
    · subst ht
      rw [tableLoop_cons_empty] at h ⊢
      exact ih st st1 tr h
    · rcases hg : gen { st.sqlArgs with DBTable := t } st.world with ⟨res, a1, w1⟩
      cases res with
      | error e0 =>
        rw [tableLoop_cons_genErr gen mat M t pre st ht e0 a1 w1 hg] at h
        simp at h
      | ok codes =>
        cases hm : (mat M codes st.outPath w1).err with
        | some e1 =>
          rw [tableLoop_cons_matErr gen mat M t pre st ht codes a1 w1 e1 hg hm] at h
          simp at h
        | none =>
          rw [tableLoop_cons_ok gen mat M t pre st ht codes a1 w1 hg hm] at h
          rw [tableLoop_cons_ok gen mat M t (pre ++ rest) st ht codes a1 w1 hg hm]
          simp only [LoopResult.mk.injEq] at h
          obtain ⟨h0, h1, h2⟩ := h
          have h3 := ih ⟨(mat M codes st.outPath w1).world, a1,
              if st.outPath = [] then (mat M codes st.outPath w1).dir else st.outPath⟩ st1
              (tableLoop gen mat M pre ⟨(mat M codes st.outPath w1).world, a1,
                if st.outPath = [] then (mat M codes st.outPath w1).dir else st.outPath⟩).trace
              (by rw [← h0, ← h1])
          rw [h3, ← h2]
          rfl

/-- A table that fails ends the loop: its error is returned and the calls stop. -/
theorem tableLoop_fails (gen : Args → W → Except E Codes × Args × W)
    (mat : Str → Codes → Str → W → GenResult W E) (M t : Str) (post : List Str)
    (st : LoopState W) (e : GoError E) (tail : List Event) (ht : t ≠ [])
    (h : FailsAt gen mat M t st e tail) :
    (tableLoop gen mat M (t :: post) st).err = some e ∧
    (tableLoop gen mat M (t :: post) st).trace = tail := by
  rcases h with ⟨e0, a1, w1, hg, he, htl⟩ | ⟨codes, a1, w1, hg, hm, htl⟩
  · rw [tableLoop_cons_genErr gen mat M t post st ht e0 a1 w1 hg, he, htl]
    exact ⟨rfl, rfl⟩
  · rw [tableLoop_cons_matErr gen mat M t post st ht codes a1 w1 e hg hm, htl]
    exact ⟨rfl, rfl⟩

/-- Fail-fast for the part of `RunE` after the module name is settled. -/
theorem runTables_fails (gen : Args → W → Except E Codes × Args × W)
    (mat : Str → Codes → Str → W → GenResult W E) (kind M dbTables t : Str)
    (pre post : List Str) (st0 st : LoopState W) (tr tail : List Event) (e : GoError E)
    (hsplit : splitComma dbTables = pre ++ t :: post) (ht : t ≠ [])
    (hpre : tableLoop gen mat M pre st0 = ⟨none, st, tr⟩)
    (hfail : FailsAt gen mat M t st e tail) :
    (runTables gen mat kind M dbTables st0).err = some e ∧
    (runTables gen mat kind M dbTables st0).stdout = [] ∧
    (runTables gen mat kind M dbTables st0).trace = tr ++ tail := by
  have h1 := tableLoop_append gen mat M (t :: post) pre st0 st tr hpre
  obtain ⟨h2, h3⟩ := tableLoop_fails gen mat M t post st e tail ht hfail
  have herr : (tableLoop gen mat M (splitComma dbTables) st0).err = some e := by
    rw [hsplit, h1]; exact h2
  refine ⟨?_, ?_, ?_⟩
  · rw [runTables_err]; exact herr
  · exact runTables_stdout_of_err _ _ _ _ _ _ e herr
  · rw [runTables_trace, hsplit, h1, h3]

end FailFast

/-- C3. Fail-fast on a table error: when the names before the table `t` were
processed without error, leaving the variables `st` after the calls `tr`, and
`sql2code.Generate` or the materialization returns the error `e` for `t`, the
`RunE` closure returns exactly `e`, prints no success line, and its calls are
`tr` followed by the calls for `t` up to the failing one: no call is made for
any later table name. -/
theorem fail_fast {W E : Type} (env : Env W E) (parentName : Str) (rnd : W → Nat) :
    (∀ (fd : DaoFlags) (w : W) (pre post : List Str) (t : Str) (st : LoopState W)
        (tr tail : List Event) (e : GoError E),
      ((env.getNamesFromOutDir fd.outPath w).1 ≠ [] ∨ fd.moduleName ≠ []) →
      splitComma fd.dbTables = pre ++ t :: post → t ≠ [] →
      tableLoop env.Generate (fun m c o => runGenDaoCommand env m fd.isIncludeInitDB c o)
        (if (env.getNamesFromOutDir fd.outPath w).1 ≠ []
          then (env.getNamesFromOutDir fd.outPath w).1 else fd.moduleName)
        pre ⟨w, fd.sqlArgs, fd.outPath⟩ = ⟨none, st, tr⟩ →
      FailsAt env.Generate (fun m c o => runGenDaoCommand env m fd.isIncludeInitDB c o)
        (if (env.getNamesFromOutDir fd.outPath w).1 ≠ []
          then (env.getNamesFromOutDir fd.outPath w).1 else fd.moduleName) t st e tail →
      (DaoCommand.RunE env parentName fd w).err = some e ∧
      (DaoCommand.RunE env parentName fd w).stdout = [] ∧
      (DaoCommand.RunE env parentName fd w).trace = tr ++ tail) ∧
    (∀ (fh : HandlerFlags) (w : W) (pre post : List Str) (t : Str) (st : LoopState W)
        (tr tail : List Event) (e : GoError E),
      ((env.getNamesFromOutDir fh.outPath w).1 ≠ [] ∨ fh.moduleName ≠ []) →
      splitComma fh.dbTables = pre ++ t :: post → t ≠ [] →
      tableLoop env.Generate (fun m c o w1 => runGenHandlerCommand env (rnd w1) m c o w1)
        (if (env.getNamesFromOutDir fh.outPath w).1 ≠ []
          then (env.getNamesFromOutDir fh.outPath w).1 else fh.moduleName)
        pre ⟨w, fh.sqlArgs, fh.outPath⟩ = ⟨none, st, tr⟩ →
      FailsAt env.Generate (fun m c o w1 => runGenHandlerCommand env (rnd w1) m c o w1)
        (if (env.getNamesFromOutDir fh.outPath w).1 ≠ []
          then (env.getNamesFromOutDir fh.outPath w).1 else fh.moduleName) t st e tail →
      (HandlerCommand.RunE env rnd fh w).err = some e ∧
      (HandlerCommand.RunE env rnd fh w).stdout = [] ∧
      (HandlerCommand.RunE env rnd fh w).trace = tr ++ tail) := by
  constructor
  · intro fd w pre post t st tr tail e hm hsplit ht hpre hfail
    unfold DaoCommand.RunE
    simp only
    by_cases h1 : (env.getNamesFromOutDir fd.outPath w).1 = []
    · have h2 : fd.moduleName ≠ [] := by
        rcases hm with hm | hm
        · exact absurd h1 hm
        · exact hm
      simp only [h1, ne_eq, not_true_eq_false, if_false, h2] at hpre hfail ⊢
      exact runTables_fails _ _ _ _ _ _ _ _ _ _ _ _ _ hsplit ht hpre hfail
    · simp only [ne_eq, h1, not_false_eq_true, if_true] at hpre hfail ⊢
      exact runTables_fails _ _ _ _ _ _ _ _ _ _ _ _ _ hsplit ht hpre hfail
  · intro fh w pre post t st tr tail e hm hsplit ht hpre hfail
    unfold HandlerCommand.RunE
    simp only
    by_cases h1 : (env.getNamesFromOutDir fh.outPath w).1 = []
    · have h2 : fh.moduleName ≠ [] := by
        rcases hm with hm | hm
        · exact absurd h1 hm
        · exact hm
      simp only [h1, ne_eq, not_true_eq_false, if_false, h2] at hpre hfail ⊢
      exact runTables_fails _ _ _ _ _ _ _ _ _ _ _ _ _ hsplit ht hpre hfail
    · simp only [ne_eq, h1, not_false_eq_true, if_true] at hpre hfail ⊢
      exact runTables_fails _ _ _ _ _ _ _ _ _ _ _ _ _ hsplit ht hpre hfail

/-- The run `--db-table=t1,bad,t2 --module-name=foo` of the `dao` command:
`Generate` fails for `bad`, its error is returned, and `t2` is never reached. -/
theorem fail_fast_witness :
    (DaoCommand.RunE (demoEnv [] (some (demoReplacer [] false false))) "micro".toList
        ⟨"foo".toList, [], "t1,bad,t2".toList, false, demoArgs⟩ 0).err
      = some (.ext "no such table".toList) ∧
    (DaoCommand.RunE (demoEnv [] (some (demoReplacer [] false false))) "micro".toList
        ⟨"foo".toList, [], "t1,bad,t2".toList, false, demoArgs⟩ 0).stdout = [] ∧
    (DaoCommand.RunE (demoEnv [] (some (demoReplacer [] false false))) "micro".toList
        ⟨"foo".toList, [], "t1,bad,t2".toList, false, demoArgs⟩ 0).trace
      = [.generate "t1".toList,
         .materialize "foo".toList [("tableName".toList, "t1".toList)] []]
        ++ [.generate "bad".toList] :=
  (fail_fast (demoEnv [] (some (demoReplacer [] false false))) "micro".toList (fun _ => 7)).1
    ⟨"foo".toList, [], "t1,bad,t2".toList, false, demoArgs⟩ 0
    ["t1".toList] ["t2".toList] "bad".toList
    ⟨1, { demoArgs with DBTable := "t1".toList }, "dao_150405".toList⟩
    [.generate "t1".toList, .materialize "foo".toList [("tableName".toList, "t1".toList)] []]
    [.generate "bad".toList] (.ext "no such table".toList)
    (Or.inr (by decide)) (by decide) (by decide) rfl
    (Or.inl ⟨"no such table".toList, { demoArgs with DBTable := "bad".toList }, 1,
      rfl, rfl, rfl⟩)

/-! ## Refusal when the output exists -/

/-- C4, as stated, fails: with a replacer whose `SetOutputDir` reports an error
while its `SaveFiles` succeeds, `runGenDaoCommand` and `runGenHandlerCommand`
return a nil error and `SaveFiles` has written (the count of writing runs went
from 0 to 1). -/
theorem refusal_on_SetOutputDir_counterexample :
    ((demoReplacer [] true false).SetOutputDir "out".toList "dao".toList 0).1
      = some "exists".toList ∧
    (runGenDaoCommand (demoEnv [] (some (demoReplacer [] true false))) "foo".toList false []
      "out".toList 0).err = none ∧
    (runGenDaoCommand (demoEnv [] (some (demoReplacer [] true false))) "foo".toList false []
      "out".toList 0).world = 1 ∧
    ((demoReplacer [] true false).SetOutputDir "out".toList "handler".toList 0).1
      = some "exists".toList ∧
    (runGenHandlerCommand (demoEnv [] (some (demoReplacer [] true false))) 7 "foo".toList []
      "out".toList 0).err = none ∧
    (runGenHandlerCommand (demoEnv [] (some (demoReplacer [] true false))) 7 "foo".toList []
      "out".toList 0).world = 1 := by
  decide

/-- C4, amended. With a registered replacer `r`, `runGenDaoCommand` and
`runGenHandlerCommand` drop what `SetOutputDir` reports and always go on to
`SaveFiles`, in the world `SetOutputDir` left: the error they return is the one
`SaveFiles` returns (nil when it returns nil), the directory is empty when
there is an error and `GetOutputDir` otherwise, and the world afterwards is the
one `SaveFiles` left. -/
theorem refusal_decided_by_SaveFiles {W E : Type} (env : Env W E) (r : Replacer W E)
    (rnd : Nat) (moduleName : Str) (isIncludeInitDB : Bool) (codes : Codes) (outPath : Str)
    (w : W) (hr : env.Replacers env.names.TplNameSponge = some r) :
    (∃ w4 : W,
      (runGenDaoCommand env moduleName isIncludeInitDB codes outPath w).err
        = (r.SaveFiles (r.SetOutputDir outPath "dao".toList w4).2).1.map GoError.ext ∧
      (runGenDaoCommand env moduleName isIncludeInitDB codes outPath w).world
        = (r.SaveFiles (r.SetOutputDir outPath "dao".toList w4).2).2 ∧
      (runGenDaoCommand env moduleName isIncludeInitDB codes outPath w).dir
        = (if (r.SaveFiles (r.SetOutputDir outPath "dao".toList w4).2).1.isNone
            then r.GetOutputDir (r.SaveFiles (r.SetOutputDir outPath "dao".toList w4).2).2
            else []) ∧
      (runGenDaoCommand env moduleName isIncludeInitDB codes outPath w).calls.getLast?
        = some RCall.SaveFiles) ∧
    (∃ w4 : W,
      (runGenHandlerCommand env rnd moduleName codes outPath w).err
        = (r.SaveFiles (r.SetOutputDir outPath "handler".toList w4).2).1.map GoError.ext ∧
      (runGenHandlerCommand env rnd moduleName codes outPath w).world
        = (r.SaveFiles (r.SetOutputDir outPath "handler".toList w4).2).2 ∧
      (runGenHandlerCommand env rnd moduleName codes outPath w).dir
        = (if (r.SaveFiles (r.SetOutputDir outPath "handler".toList w4).2).1.isNone
            then r.GetOutputDir (r.SaveFiles (r.SetOutputDir outPath "handler".toList w4).2).2
            else []) ∧
      (runGenHandlerCommand env rnd moduleName codes outPath w).calls.getLast?
        = some RCall.SaveFiles) := by
  constructor
  · unfold runGenDaoCommand
    simp only [hr]
    refine ⟨r.SetReplacementFields
      (addDAOFields env.names moduleName r
        (r.SetIgnoreSubFiles
          (if isIncludeInitDB then [] else ["init.go".toList, "init_test.go".toList])
          (r.SetIgnoreSubDirs []
            (r.SetSubDirsAndFiles
              ["internal/model".toList, "internal/cache".toList, "internal/dao".toList] w)))
        codes)
      (r.SetIgnoreSubFiles
        (if isIncludeInitDB then [] else ["init.go".toList, "init_test.go".toList])
        (r.SetIgnoreSubDirs []
          (r.SetSubDirsAndFiles
            ["internal/model".toList, "internal/cache".toList, "internal/dao".toList] w))),
      ?_⟩
    split
    · rename_i err w6 hs
      rw [hs]
      exact ⟨rfl, rfl, rfl, rfl⟩
    · rename_i w6 hs
      rw [hs]
      exact ⟨rfl, rfl, rfl, rfl⟩
  · unfold runGenHandlerCommand
    simp only [hr]
    refine ⟨r.SetReplacementFields
      (addHandlerFields env.names env.adjustmentOfIDType rnd moduleName r
        (r.SetIgnoreSubFiles
          ["systemCode_http.go".toList, "systemCode_rpc.go".toList,
            "userExample_rpc.go".toList, "init.go".toList, "init_test.go".toList,
            "routers.go".toList, "routers_test.go".toList, "routers_pbExample.go".toList,
            "routers_pbExample_test.go".toList, "userExample_service.pb.go".toList,
            "swagger_types.go".toList]
          (r.SetIgnoreSubDirs []
            (r.SetSubDirsAndFiles
              ["internal/model".toList, "internal/cache".toList, "internal/dao".toList,
                "internal/ecode".toList, "internal/handler".toList,
                "internal/routers".toList, "internal/types".toList] w)))
        codes)
      (r.SetIgnoreSubFiles
          ["systemCode_http.go".toList, "systemCode_rpc.go".toList,
            "userExample_rpc.go".toList, "init.go".toList, "init_test.go".toList,
            "routers.go".toList, "routers_test.go".toList, "routers_pbExample.go".toList,
            "routers_pbExample_test.go".toList, "userExample_service.pb.go".toList,
            "swagger_types.go".toList]
          (r.SetIgnoreSubDirs []
            (r.SetSubDirsAndFiles
              ["internal/model".toList, "internal/cache".toList, "internal/dao".toList,
                "internal/ecode".toList, "internal/handler".toList,
                "internal/routers".toList, "internal/types".toList] w))),
      ?_⟩
    split
    · rename_i err w6 hs
      rw [hs]
      exact ⟨rfl, rfl, rfl, rfl⟩
    · rename_i w6 hs
      rw [hs]
      exact ⟨rfl, rfl, rfl, rfl⟩

/-- A replacer whose `SaveFiles` refuses while `SetOutputDir` reports nothing:
`runGenDaoCommand` returns the error of `SaveFiles`, with an empty directory. -/
theorem refusal_decided_by_SaveFiles_witness :
    (runGenDaoCommand (demoEnv [] (some (demoReplacer [] false true))) "foo".toList false []
      "out".toList 0).err = some (.ext "save".toList) ∧
    (runGenDaoCommand (demoEnv [] (some (demoReplacer [] false true))) "foo".toList false []
      "out".toList 0).dir = [] := by
  obtain ⟨w4, h1, -, h3, -⟩ :=
    (refusal_decided_by_SaveFiles (demoEnv [] (some (demoReplacer [] false true)))
      (demoReplacer [] false true) 7 "foo".toList false [] "out".toList 0 rfl).1
  constructor
  · rw [h1]; simp [demoReplacer]
  · rw [h3]; simp [demoReplacer]

/-! ## Lemmas on `bytes.Index` and `strings.ReplaceAll` -/

section StringLemmas

theorem borderFree_spec (m : Str) (h : borderFree m = true) (k : Nat) (h0 : 0 < k)
    (hk : k < m.length) : ¬ (m.drop k) <+: m := by
  unfold borderFree at h
  rw [List.all_eq_true] at h
  have h1 := h k (List.mem_range.mpr hk)
  have h2 : (k == 0) = false := by simp; omega
  simp only [h2, Bool.false_or, Bool.not_eq_true', ← Bool.not_eq_true,
    List.isPrefixOf_iff_prefix] at h1
  exact h1

theorem contains_eq_false (sub : Str) :
    ∀ s : Str, contains s sub = false → ∀ i, i ≤ s.length → ¬ sub <+: s.drop i := by
  intro s
  induction s with
  | nil =>
    intro h i _ hp
    have hs : sub = [] := by simpa using hp
    simp [contains, index, hs] at h
  | cons c cs ih =>
    intro h i hi hp
    unfold contains index at h
    by_cases h1 : sub.isPrefixOf (c :: cs) = true
    · simp [h1] at h
    · have h2 : contains cs sub = false := by
        simp [h1] at h
        simp [contains, h]
      cases i with
      | zero => exact h1 (List.isPrefixOf_iff_prefix.mpr hp)
      | succ j =>
        exact ih h2 j (by simpa using hi) (by simpa using hp)

theorem index_eq_none (s sub : Str) (h : contains s sub = false) : index s sub = none := by
  unfold contains at h
  cases hi : index s sub with
  | none => rfl
  | some i => simp [hi] at h

theorem index_first (sub rest : Str) :
    ∀ p : Str, (∀ i, i < p.length → ¬ sub <+: (p ++ (sub ++ rest)).drop i) →
      index (p ++ (sub ++ rest)) sub = some p.length := by
  intro p
  induction p with
  | nil =>
    intro _
    have hp : sub.isPrefixOf (sub ++ rest) = true :=
      List.isPrefixOf_iff_prefix.mpr (List.prefix_append _ _)
    cases hsr : sub ++ rest with
    | nil =>
      have hs : sub = [] := (List.append_eq_nil.mp hsr).1
      simp [index, hs]
    | cons c cs =>
      rw [hsr] at hp
      simp [index, hp]
  | cons c p ih =>
    intro h
    have h0 : ¬ sub.isPrefixOf (c :: (p ++ (sub ++ rest))) = true := by
      intro hp
      exact h 0 (by simp) (by simpa using List.isPrefixOf_iff_prefix.mp hp)
    have h1 := ih (fun i hi => by
      have := h (i + 1) (by simpa using hi)
      simpa using this)
    rw [List.cons_append, index]
    simp [h0, h1]

/-- A text without border that does not occur in `p` has no occurrence in
`p ++ sub ++ rest` before the one at the end of `p`. -/
theorem no_early_occurrence (sub p rest : Str) (hb : borderFree sub = true)
    (hc : contains p sub = false) :
    ∀ i, i < p.length → ¬ sub <+: (p ++ (sub ++ rest)).drop i := by
  intro i hi hp
  rw [List.drop_append_of_le_length (Nat.le_of_lt hi)] at hp
  have hq : 0 < (p.drop i).length := by simp; omega
  by_cases hle : sub.length ≤ (p.drop i).length
  · have h1 : sub <+: p.drop i :=
      List.prefix_of_prefix_length_le hp (List.prefix_append _ _) hle
    exact contains_eq_false sub p hc i (Nat.le_of_lt hi) h1
  · have hlt : (p.drop i).length < sub.length := Nat.lt_of_not_le hle
    have h1 : p.drop i <+: sub :=
      List.prefix_of_prefix_length_le (List.prefix_append _ _) hp (Nat.le_of_lt hlt)
    obtain ⟨t, ht⟩ := h1
    have h2 : p.drop i ++ t <+: p.drop i ++ (sub ++ rest) := by rw [ht]; exact hp
    have h3 : t <+: sub ++ rest := (List.prefix_append_right_inj _).mp h2
    have h4 : t.length ≤ sub.length := by rw [← ht]; simp
    have h5 : t <+: sub := List.prefix_of_prefix_length_le h3 (List.prefix_append _ _) h4
    have h6 : sub.drop (p.drop i).length = t := by rw [← ht]; exact List.drop_left _ _
    rw [← h6] at h5
    exact borderFree_spec sub hb _ hq hlt h5

theorem replaceGo_skip (old new rest : Str) :
    ∀ l : Str, replaceGo old new l.length (l ++ rest) = replaceGo old new 0 rest := by
  intro l
  induction l with
  | nil => rfl
  | cons c l ih =>
    rw [List.cons_append, List.length_cons, replaceGo]
    exact ih

theorem replaceGo_first (old new rest : Str) (hne : old ≠ []) :
    ∀ p : Str, (∀ i, i < p.length → ¬ old <+: (p ++ (old ++ rest)).drop i) →
      replaceGo old new 0 (p ++ (old ++ rest)) = p ++ (new ++ replaceGo old new 0 rest) := by
  intro p
  induction p with
  | nil =>
    intro _
    cases hold : old with
    | nil => exact absurd hold hne
    | cons c o =>
      have hp : (c :: o).isPrefixOf (c :: (o ++ rest)) = true :=
        List.isPrefixOf_iff_prefix.mpr (by
          rw [← List.cons_append]; exact List.prefix_append _ _)
      rw [List.nil_append, List.nil_append, List.cons_append, replaceGo]
      simp only [hp, if_true, List.length_cons, Nat.add_sub_cancel]
      rw [replaceGo_skip]
  | cons c p ih =>
    intro h
    have h0 : ¬ old.isPrefixOf (c :: (p ++ (old ++ rest))) = true := by
      intro hp
      exact h 0 (by simp) (by simpa using List.isPrefixOf_iff_prefix.mp hp)
    have h1 := ih (fun i hi => by
      have := h (i + 1) (by simpa using hi)
      simpa using this)
    rw [List.cons_append, replaceGo]
    simp [h0, h1]

theorem replaceGo_none (old new : Str) :
    ∀ s : Str, (∀ i, i ≤ s.length → ¬ old <+: s.drop i) → replaceGo old new 0 s = s := by
  intro s
  induction s with
  | nil => intro _; rfl
  | cons c cs ih =>
    intro h
    have h0 : ¬ old.isPrefixOf (c :: cs) = true := by
      intro hp
      exact h 0 (by simp) (by simpa using List.isPrefixOf_iff_prefix.mp hp)
    have h1 := ih (fun i hi => by
      have := h (i + 1) (by simpa using hi)
      simpa using this)
    rw [replaceGo]
    simp [h0, h1]

theorem startMark_borderFree : borderFree startMark = true := by decide

theorem endMark_borderFree : borderFree endMark = true := by decide

theorem spongeRoot_borderFree : borderFree spongeRoot = true := by decide

end StringLemmas

/-! ## Marker-block deletion -/

section MarkerLemmas

theorem findMarkedSpan_block (S T pre body suf : Str) (hS : borderFree S = true)
    (hT : borderFree T = true) (hpre : contains pre S = false)
    (hbody : contains body T = false) :
    findMarkedSpan (pre ++ S ++ body ++ T ++ suf) S T = some (S ++ body ++ T) := by
  have e1 : pre ++ S ++ body ++ T ++ suf = pre ++ (S ++ (body ++ (T ++ suf))) := by
    simp [List.append_assoc]
  have h1 : index (pre ++ (S ++ (body ++ (T ++ suf)))) S = some pre.length :=
    index_first S _ pre (no_early_occurrence S pre _ hS hpre)
  have h2 : (pre ++ (S ++ (body ++ (T ++ suf)))).drop (pre.length + S.length)
      = body ++ (T ++ suf) := by
    rw [← List.append_assoc, ← List.length_append]
    exact List.drop_left _ _
  have h3 : index (body ++ (T ++ suf)) T = some body.length :=
    index_first T _ body (no_early_occurrence T body _ hT hbody)
  have h4 : ((pre ++ (S ++ (body ++ (T ++ suf)))).drop pre.length).take
      (S.length + body.length + T.length) = S ++ body ++ T := by
    rw [List.drop_left]
    have e2 : S ++ (body ++ (T ++ suf)) = (S ++ body ++ T) ++ suf := by
      simp [List.append_assoc]
    rw [e2]
    exact List.take_left' (by simp [Nat.add_assoc])
  rw [e1]
  unfold findMarkedSpan
  simp only [h1, h2, h3, h4]

theorem deleteFieldsMark_block {W E : Type} (r : Replacer W E) (w : W) (file : Str)
    (pre body suf : Str)
    (hread : r.ReadFile file w = .ok (pre ++ startMark ++ body ++ endMark ++ suf))
    (hpre : contains pre startMark = false) (hbody : contains body endMark = false) :
    deleteFieldsMark r w file startMark endMark
      = [{ Old := startMark ++ body ++ endMark, New := [], IsCaseSensitive := false }] := by
  unfold deleteFieldsMark
  simp only [hread]
  rw [findMarkedSpan_block startMark endMark pre body suf startMark_borderFree
    endMark_borderFree hpre hbody]

theorem deleteFieldsMark_none {W E : Type} (r : Replacer W E) (w : W) (file content : Str)
    (hread : r.ReadFile file w = .ok content) (hc : contains content startMark = false) :
    deleteFieldsMark r w file startMark endMark = [] := by
  unfold deleteFieldsMark
  simp only [hread]
  unfold findMarkedSpan
  simp only [index_eq_none content startMark hc]

theorem startMark_ne_nil : startMark ≠ [] := by decide

/-- The marked span of a template has no occurrence before its own place. -/
theorem span_no_early (pre body suf : Str) (hpre : contains pre startMark = false) :
    ∀ i, i < pre.length →
      ¬ (startMark ++ body ++ endMark)
          <+: (pre ++ ((startMark ++ body ++ endMark) ++ suf)).drop i := by
  intro i hi hp
  have h1 : startMark <+: startMark ++ body ++ endMark := by
    rw [List.append_assoc]; exact List.prefix_append _ _
  have h2 := no_early_occurrence startMark pre (body ++ (endMark ++ suf))
    startMark_borderFree hpre i hi
  apply h2
  have e2 : pre ++ (startMark ++ (body ++ (endMark ++ suf)))
      = pre ++ ((startMark ++ body ++ endMark) ++ suf) := by
    simp [List.append_assoc]
  rw [e2]
  exact h1.trans hp

/-- Taking the marked span out where it first stands leaves what is before
and after it. -/
theorem exciseSpan_block (pre body suf : Str) (hpre : contains pre startMark = false) :
    exciseSpan (pre ++ startMark ++ body ++ endMark ++ suf) (startMark ++ body ++ endMark)
      = pre ++ suf := by
  have e1 : pre ++ startMark ++ body ++ endMark ++ suf
      = pre ++ ((startMark ++ body ++ endMark) ++ suf) := by
    simp [List.append_assoc]
  have h1 := index_first (startMark ++ body ++ endMark) suf pre
    (span_no_early pre body suf hpre)
  have h2 : (pre ++ ((startMark ++ body ++ endMark) ++ suf)).drop
      (pre.length + (startMark ++ body ++ endMark).length) = suf := by
    rw [← List.append_assoc]
    exact List.drop_left' (by simp)
  rw [e1]
  unfold exciseSpan
  simp only [h1]
  rw [List.take_left, h2]

theorem exciseMarked_block (S T pre body suf : Str) (hS : borderFree S = true)
    (hT : borderFree T = true) (hpre : contains pre S = false)
    (hbody : contains body T = false) :
    exciseMarked (pre ++ S ++ body ++ T ++ suf) S T = .ok (pre ++ suf) := by
  have e1 : pre ++ S ++ body ++ T ++ suf = pre ++ (S ++ (body ++ (T ++ suf))) := by
    simp [List.append_assoc]
  have h1 : index (pre ++ (S ++ (body ++ (T ++ suf)))) S = some pre.length :=
    index_first S _ pre (no_early_occurrence S pre _ hS hpre)
  have h2 : (pre ++ (S ++ (body ++ (T ++ suf)))).drop (pre.length + S.length)
      = body ++ (T ++ suf) := by
    rw [← List.append_assoc, ← List.length_append]
    exact List.drop_left _ _
  have h3 : index (body ++ (T ++ suf)) T = some body.length :=
    index_first T _ body (no_early_occurrence T body _ hT hbody)
  have h4 : (pre ++ (S ++ (body ++ (T ++ suf)))).drop
      (pre.length + S.length + body.length + T.length) = suf := by
    have e2 : pre ++ (S ++ (body ++ (T ++ suf))) = (pre ++ S ++ body ++ T) ++ suf := by
      simp [List.append_assoc]
    rw [e2]
    exact List.drop_left' (by simp [Nat.add_assoc])
  rw [e1]
  unfold exciseMarked
  simp only [h1, h2, h3, h4, List.take_left]

end MarkerLemmas

/-- C5. Marker-block deletion: for a template file that reads as
`pre ++ startMark ++ body ++ endMark ++ suf`, with no start mark in `pre` and
no end mark in `body`, `deleteFieldsMark` yields one rule, which holds the
marked span; applying the rules it yields gives exactly `pre ++ suf`, every
byte outside the span as it was, and so does the excision of the spec from the
two marks.  For a file that holds no start mark the rule list is empty and the
content stays as it is. -/
theorem marker_block_deletion {W E : Type} (r : Replacer W E) (w : W) (file : Str)
    (pre body suf : Str)
    (hread : r.ReadFile file w = .ok (pre ++ startMark ++ body ++ endMark ++ suf))
    (hpre : contains pre startMark = false) (hbody : contains body endMark = false) :
    deleteFieldsMark r w file startMark endMark
      = [{ Old := startMark ++ body ++ endMark, New := [], IsCaseSensitive := false }] ∧
    applyDeletions (deleteFieldsMark r w file startMark endMark)
        (pre ++ startMark ++ body ++ endMark ++ suf) = pre ++ suf ∧
    exciseMarked (pre ++ startMark ++ body ++ endMark ++ suf) startMark endMark
      = .ok (pre ++ suf) ∧
    (∀ (file2 content : Str), r.ReadFile file2 w = .ok content →
      contains content startMark = false →
      deleteFieldsMark r w file2 startMark endMark = [] ∧
      applyDeletions (deleteFieldsMark r w file2 startMark endMark) content = content ∧
      exciseMarked content startMark endMark = .ok content) := by
  have h1 := deleteFieldsMark_block r w file pre body suf hread hpre hbody
  refine ⟨h1, ?_, ?_, ?_⟩
  · rw [h1]
    simp only [applyDeletions, List.foldl]
    exact exciseSpan_block pre body suf hpre
  · exact exciseMarked_block startMark endMark pre body suf startMark_borderFree
      endMark_borderFree hpre hbody
  · intro file2 content hr hc
    have h3 := deleteFieldsMark_none r w file2 content hr hc
    rw [h3]
    refine ⟨rfl, rfl, ?_⟩
    unfold exciseMarked
    simp only [index_eq_none content startMark hc]

set_option maxRecDepth 100000

/-- The marked block of the template `internal/handler/userExample_test.go`
(lines 116 to 138): the rule made for the file removes that span and keeps the
lines around it.  A file with two marked blocks of the same text, `a` block `b`
block `c`: only the first block is taken out. -/
theorem marker_block_deletion_witness :
    applyDeletions
        (deleteFieldsMark
          (demoReplacer (tplBefore ++ startMark ++ tplBlock ++ endMark ++ tplAfter) false false)
          0 "internal/handler/userExample_test.go".toList startMark endMark)
        (tplBefore ++ startMark ++ tplBlock ++ endMark ++ tplAfter)
      = tplBefore ++ tplAfter ∧
    applyDeletions
        (deleteFieldsMark
          (demoReplacer ("a\n".toList ++ startMark ++ "\nx\n".toList ++ endMark
            ++ ("\nb\n".toList ++ startMark ++ "\nx\n".toList ++ endMark ++ "\nc\n".toList))
            false false) 0 "internal/handler/userExample_test.go".toList startMark endMark)
        ("a\n".toList ++ startMark ++ "\nx\n".toList ++ endMark
          ++ ("\nb\n".toList ++ startMark ++ "\nx\n".toList ++ endMark ++ "\nc\n".toList))
      = "a\n".toList
          ++ ("\nb\n".toList ++ startMark ++ "\nx\n".toList ++ endMark ++ "\nc\n".toList) :=
  ⟨(marker_block_deletion
      (demoReplacer (tplBefore ++ startMark ++ tplBlock ++ endMark ++ tplAfter) false false)
      0 "internal/handler/userExample_test.go".toList tplBefore tplBlock tplAfter rfl
      (by decide) (by decide)).2.1,
    (marker_block_deletion
      (demoReplacer ("a\n".toList ++ startMark ++ "\nx\n".toList ++ endMark
        ++ ("\nb\n".toList ++ startMark ++ "\nx\n".toList ++ endMark ++ "\nc\n".toList))
        false false)
      0 "internal/handler/userExample_test.go".toList "a\n".toList "\nx\n".toList
      ("\nb\n".toList ++ startMark ++ "\nx\n".toList ++ endMark ++ "\nc\n".toList) rfl
      (by decide) (by decide)).2.1⟩

/-! ## The module rewrite -/

section RewriteLemmas

/-- An occurrence of a text without border cannot start inside `x` and end
inside the copy of the text that follows `x`. -/
theorem straddle_absurd (old x y : Str) (hb : borderFree old = true) (h0 : 0 < x.length)
    (hlt : x.length < old.length) : ¬ old <+: x ++ (old ++ y) := by
  intro hp
  have h1 : x <+: old :=
    List.prefix_of_prefix_length_le (List.prefix_append _ _) hp (Nat.le_of_lt hlt)
  obtain ⟨t, ht⟩ := h1
  have h2 : x ++ t <+: x ++ (old ++ y) := by rw [ht]; exact hp
  have h3 : t <+: old ++ y := (List.prefix_append_right_inj _).mp h2
  have h4 : t.length ≤ old.length := by rw [← ht]; simp
  have h5 : t <+: old := List.prefix_of_prefix_length_le h3 (List.prefix_append _ _) h4
  have h6 : old.drop x.length = t := by rw [← ht]; exact List.drop_left _ _
  rw [← h6] at h5
  exact borderFree_spec old hb _ h0 hlt h5

theorem replaceGo_head (old new rest : Str) (hne : old ≠ []) :
    replaceGo old new 0 (old ++ rest) = new ++ replaceGo old new 0 rest := by
  have := replaceGo_first old new rest hne [] (fun i hi => by simp at hi)
  simpa using this

/-- For a text without border, the scan of `strings.ReplaceAll` replaces an
occurrence wherever it stands and treats what is before and after it apart. -/
theorem replaceGo_split (old new y : Str) (hne : old ≠ []) (hb : borderFree old = true) :
    ∀ (k : Nat) (x : Str), x.length ≤ k →
      replaceGo old new 0 (x ++ (old ++ y))
        = replaceGo old new 0 x ++ (new ++ replaceGo old new 0 y) := by
  intro k
  induction k with
  | zero =>
    intro x hx
    have hx0 : x = [] := List.length_eq_zero.mp (Nat.le_zero.mp hx)
    subst hx0
    rw [List.nil_append, replaceGo_head old new y hne]
    rfl
  | succ k ih =>
    intro x hx
    cases x with
    | nil =>
      rw [List.nil_append, replaceGo_head old new y hne]
      rfl
    | cons c x =>
      by_cases hp : old <+: (c :: x) ++ (old ++ y)
      · by_cases hle : old.length ≤ (c :: x).length
        · have h1 : old <+: c :: x :=
            List.prefix_of_prefix_length_le hp (List.prefix_append _ _) hle
          obtain ⟨t, ht⟩ := h1
          have hol : 0 < old.length := List.length_pos.mpr hne
          have htl : t.length ≤ k := by
            have := congrArg List.length ht
            simp at this
            simp at hx
            omega
          rw [← ht, List.append_assoc, replaceGo_head old new _ hne,
            replaceGo_head old new t hne, ih t htl, List.append_assoc]
        · exact absurd hp (straddle_absurd old (c :: x) y hb (by simp)
            (Nat.lt_of_not_le hle))
      · have h0 : ¬ old.isPrefixOf (c :: (x ++ (old ++ y))) = true := by
          intro h
          exact hp (by simpa using List.isPrefixOf_iff_prefix.mp h)
        have h1 : ¬ old.isPrefixOf (c :: x) = true := by
          intro h
          exact hp ((List.isPrefixOf_iff_prefix.mp h).trans (List.prefix_append _ _))
        have hxl : x.length ≤ k := by simpa using hx
        rw [List.cons_append, replaceGo, replaceGo]
        simp [h0, h1, ih x hxl]

theorem spongeRoot_ne_nil : spongeRoot ≠ [] := by decide

theorem applyFields_append (fs gs : List Field) (buf : Str) :
    applyFields (fs ++ gs) buf = applyFields gs (applyFields fs buf) := by
  simp [applyFields, List.foldl_append]

end RewriteLemmas

/-! ## The rule lists -/

/-- C7. Rule order of the DAO rule list: `addDAOFields` returns the deletion
rules of the model file, of the dao file and of the dao test file, then the six
substitutions: model mark to `codes[Model]`, dao mark to `codes[DAO]`,
`selfPackageName/sourcePath` to module name, `github.com/zhufuyi/sponge` to
module name, module name + `/pkg` to `github.com/zhufuyi/sponge/pkg`,
`UserExample` to `codes[TableName]` with the case flag set, in this order.  The
rename is the last rule: applying the list is applying all rules but the last
and then replacing `UserExample` in the buffer they left, inserted text
included. -/
theorem dao_rule_order {W E : Type} (n : Names) (M : Str) (r : Replacer W E) (w : W)
    (codes : Codes) :
    addDAOFields n M r w codes
      = deleteFieldsMark r w n.modelFile startMark endMark
        ++ deleteFieldsMark r w n.daoFile startMark endMark
        ++ deleteFieldsMark r w n.daoTestFile startMark endMark
        ++ [⟨n.modelFileMark, codes.get n.CodeTypeModel, false⟩,
            ⟨n.daoFileMark, codes.get n.CodeTypeDAO, false⟩,
            ⟨n.selfPackageName ++ "/".toList ++ r.GetSourcePath w, M, false⟩,
            ⟨"github.com/zhufuyi/sponge".toList, M, false⟩,
            ⟨M ++ "/pkg".toList, "github.com/zhufuyi/sponge/pkg".toList, false⟩,
            ⟨"UserExample".toList, codes.get n.TableName, true⟩] ∧
    (addDAOFields n M r w codes).getLast?
      = some ⟨"UserExample".toList, codes.get n.TableName, true⟩ ∧
    (∀ buf : Str, applyFields (addDAOFields n M r w codes) buf
      = replaceAll (applyFields (addDAOFields n M r w codes).dropLast buf)
          "UserExample".toList (codes.get n.TableName)) := by
  have e : addDAOFields n M r w codes
      = (deleteFieldsMark r w n.modelFile startMark endMark
        ++ deleteFieldsMark r w n.daoFile startMark endMark
        ++ deleteFieldsMark r w n.daoTestFile startMark endMark
        ++ [⟨n.modelFileMark, codes.get n.CodeTypeModel, false⟩,
            ⟨n.daoFileMark, codes.get n.CodeTypeDAO, false⟩,
            ⟨n.selfPackageName ++ "/".toList ++ r.GetSourcePath w, M, false⟩,
            ⟨"github.com/zhufuyi/sponge".toList, M, false⟩,
            ⟨M ++ "/pkg".toList, "github.com/zhufuyi/sponge/pkg".toList, false⟩])
        ++ [⟨"UserExample".toList, codes.get n.TableName, true⟩] := by
    simp [addDAOFields]
  refine ⟨by simp [addDAOFields], ?_, ?_⟩
  · rw [e, List.getLast?_append]
    rfl
  · intro buf
    rw [e, List.dropLast_concat, applyFields_append]
    rfl

/-- The rename of `addDAOFields` acts on the text the model rule inserted: on a
file that is only the model mark, with `type UserExample struct` as the model
code and `Order` as the table name, the list gives `type Order struct`. -/
theorem dao_rule_order_inserted_text :
    applyFields
        (addDAOFields demoNames "foo".toList (demoReplacer [] false false) 0
          [("model".toList, "type UserExample struct".toList),
           ("tableName".toList, "Order".toList)])
        "// todo generate model codes to here".toList
      = "type Order struct".toList := by
  decide

/-- C9. The ID-type adjustment touches the Handler text only: in the list of
`addHandlerFields`, after the deletion rules, the rules for the model mark and
the dao mark carry `codes[Model]` and `codes[DAO]` as they are, the same two
rules that follow the deletion rules in the list of `addDAOFields`, and the
rule for the handler mark carries `adjustmentOfIDType(codes[Handler])`.  The
map is only read: each replacement is a lookup in the map the caller passed. -/
theorem handler_id_adjustment {W E : Type} (n : Names) (adj : Str → Str) (rnd : Nat)
    (M : Str) (r : Replacer W E) (w : W) (codes : Codes) :
    addHandlerFields n adj rnd M r w codes
      = deleteFieldsMark r w n.modelFile startMark endMark
        ++ deleteFieldsMark r w n.daoFile startMark endMark
        ++ deleteFieldsMark r w n.daoTestFile startMark endMark
        ++ deleteFieldsMark r w n.handlerFile startMark endMark
        ++ deleteFieldsMark r w n.handlerTestFile startMark endMark
        ++ [⟨n.modelFileMark, codes.get n.CodeTypeModel, false⟩,
            ⟨n.daoFileMark, codes.get n.CodeTypeDAO, false⟩,
            ⟨n.handlerFileMark, adj (codes.get n.CodeTypeHandler), false⟩,
            ⟨n.selfPackageName ++ "/".toList ++ r.GetSourcePath w, M, false⟩,
            ⟨"github.com/zhufuyi/sponge".toList, M, false⟩,
            ⟨"userExampleNO       = 1".toList,
              "userExampleNO = ".toList ++ Nat.toDigits 10 (rnd % 100), false⟩,
            ⟨M ++ "/pkg".toList, "github.com/zhufuyi/sponge/pkg".toList, false⟩,
            ⟨"UserExample".toList, codes.get n.TableName, true⟩] ∧
    (∃ rest : List Field,
      addDAOFields n M r w codes
        = deleteFieldsMark r w n.modelFile startMark endMark
          ++ deleteFieldsMark r w n.daoFile startMark endMark
          ++ deleteFieldsMark r w n.daoTestFile startMark endMark
          ++ ([⟨n.modelFileMark, codes.get n.CodeTypeModel, false⟩,
               ⟨n.daoFileMark, codes.get n.CodeTypeDAO, false⟩] ++ rest)) := by
  constructor
  · simp [addHandlerFields]
  · exact ⟨[⟨n.selfPackageName ++ "/".toList ++ r.GetSourcePath w, M, false⟩,
        ⟨"github.com/zhufuyi/sponge".toList, M, false⟩,
        ⟨M ++ "/pkg".toList, "github.com/zhufuyi/sponge/pkg".toList, false⟩,
        ⟨"UserExample".toList, codes.get n.TableName, true⟩], by simp [addDAOFields]⟩

/-! ## Selection of the template files -/

/-- C8. Include-init-db selection: with a registered replacer, the calls
`runGenDaoCommand` makes on it are, in order, `SetSubDirsAndFiles` with
`internal/model`, `internal/cache`, `internal/dao`, `SetIgnoreSubDirs` with
nothing, `SetIgnoreSubFiles` with `init.go`, `init_test.go` when
`isIncludeInitDB` is false and with nothing when it is true, then the rules,
the output directory and `SaveFiles`.  With the flag off, the selector given
these lists never yields a file named `init.go` or `init_test.go`, such as
`internal/model/init.go`; with the flag on it yields every file of the three
directories. -/
theorem include_init_db_selection {W E : Type} (env : Env W E) (r : Replacer W E)
    (moduleName : Str) (isIncludeInitDB : Bool) (codes : Codes) (outPath : Str) (w : W)
    (hr : env.Replacers env.names.TplNameSponge = some r) :
    (∃ fields : List Field,
      (runGenDaoCommand env moduleName isIncludeInitDB codes outPath w).calls
        = [.SetSubDirsAndFiles
              ["internal/model".toList, "internal/cache".toList, "internal/dao".toList],
            .SetIgnoreSubDirs [],
            .SetIgnoreSubFiles
              (if isIncludeInitDB then [] else ["init.go".toList, "init_test.go".toList]),
            .SetReplacementFields fields,
            .SetOutputDir outPath "dao".toList,
            .SaveFiles]) ∧
    (∀ (tree : List TemplateFile) (f : TemplateFile),
      f.name = "init.go".toList ∨ f.name = "init_test.go".toList →
      f ∉ Select tree
        ["internal/model".toList, "internal/cache".toList, "internal/dao".toList] []
        ["init.go".toList, "init_test.go".toList]) ∧
    (∀ (tree : List TemplateFile) (f : TemplateFile), f ∈ tree →
      f.dir ∈ ["internal/model".toList, "internal/cache".toList, "internal/dao".toList] →
      f ∈ Select tree
        ["internal/model".toList, "internal/cache".toList, "internal/dao".toList] [] []) := by
  refine ⟨?_, ?_, ?_⟩
  · unfold runGenDaoCommand
    simp only [hr]
    split <;> exact ⟨_, rfl⟩
  · intro tree f hf hmem
    unfold Select at hmem
    rw [List.mem_filter] at hmem
    have h2 := hmem.2
    rcases hf with hf | hf <;> simp [hf] at h2
  · intro tree f hf hdir
    unfold Select
    rw [List.mem_filter]
    refine ⟨hf, ?_⟩
    simp only [List.mem_cons, List.mem_singleton, List.not_mem_nil, or_false] at hdir
    rcases hdir with hd | hd | hd <;> simp [hd, dirMatches]

/-- The flag off in a concrete run: the third call is `SetIgnoreSubFiles`
with the two init files, and of a tree with `internal/model/init.go` and
`internal/model/userExample.go` the selector keeps the second file only. -/
theorem include_init_db_selection_witness :
    (runGenDaoCommand (demoEnv [] (some (demoReplacer [] false false))) "foo".toList false []
        [] 0).calls.take 3
      = [.SetSubDirsAndFiles
            ["internal/model".toList, "internal/cache".toList, "internal/dao".toList],
          .SetIgnoreSubDirs [],
          .SetIgnoreSubFiles ["init.go".toList, "init_test.go".toList]] ∧
    Select [⟨"internal/model".toList, "init.go".toList, []⟩,
        ⟨"internal/model".toList, "userExample.go".toList, []⟩]
        ["internal/model".toList, "internal/cache".toList, "internal/dao".toList] []
        ["init.go".toList, "init_test.go".toList]
      = [⟨"internal/model".toList, "userExample.go".toList, []⟩] := by
  obtain ⟨fields, h⟩ :=
    (include_init_db_selection (demoEnv [] (some (demoReplacer [] false false)))
      (demoReplacer [] false false) "foo".toList false [] [] 0 rfl).1
  constructor
  · rw [h]; rfl
  · decide

/-! ## Randomness -/

section RandomLemmas

theorem index_some_occurs (sub : Str) :
    ∀ (s : Str) (i : Nat), index s sub = some i → sub <+: s.drop i := by
  intro s
  induction s with
  | nil =>
    intro i h
    unfold index at h
    by_cases hs : sub = []
    · simp [hs]
    · simp [hs] at h
  | cons c cs ih =>
    intro i h
    unfold index at h
    by_cases hp : sub.isPrefixOf (c :: cs) = true
    · simp only [hp, if_true, Option.some.injEq] at h
      subst h
      simpa using List.isPrefixOf_iff_prefix.mp hp
    · simp only [hp] at h
      cases hj : index cs sub with
      | none => simp [hj] at h
      | some j =>
        simp [hj] at h
        subst h
        simpa using ih j hj

theorem findMarkedSpan_starts (data S T span : Str)
    (h : findMarkedSpan data S T = some span) : S <+: span := by
  unfold findMarkedSpan at h
  cases hi : index data S with
  | none => simp [hi] at h
  | some i =>
    simp only [hi] at h
    cases hj : index (data.drop (i + S.length)) T with
    | none => simp [hj] at h
    | some j =>
      simp only [hj, Option.some.injEq] at h
      have hp : S <+: data.drop i := index_some_occurs S data i hi
      rw [← h, List.prefix_iff_eq_take] at *
      rw [List.take_take]
      have : min S.length (S.length + j + T.length) = S.length := by omega
      rw [this]
      exact hp

theorem deleteFieldsMark_old {W E : Type} (r : Replacer W E) (w : W) (file S T : Str)
    (f : Field) (hf : f ∈ deleteFieldsMark r w file S T) : S <+: f.Old := by
  unfold deleteFieldsMark at hf
  cases hr : r.ReadFile file w with
  | error e => simp [hr] at hf
  | ok data =>
    simp only [hr] at hf
    cases hs : findMarkedSpan data S T with
    | none => simp [hs] at hf
    | some span =>
      simp only [hs, List.mem_singleton] at hf
      subst hf
      exact findMarkedSpan_starts data S T span hs

theorem getElem?_append_cons_ne {α : Type} (A B : List α) (x y : α) (i : Nat)
    (h : i ≠ A.length) : (A ++ x :: B)[i]? = (A ++ y :: B)[i]? := by
  rcases Nat.lt_or_gt_of_ne h with h1 | h1
  · rw [List.getElem?_append_left h1, List.getElem?_append_left h1]
  · rw [List.getElem?_append_right (Nat.le_of_lt h1),
      List.getElem?_append_right (Nat.le_of_lt h1)]
    obtain ⟨j, hj⟩ : ∃ j, i - A.length = j + 1 := ⟨i - A.length - 1, by omega⟩
    rw [hj]
    rfl

theorem slash_not_mem_userExampleNO : '/' ∉ userExampleNO := by decide

end RandomLemmas

/-- C10. Randomness is confined to one rule: two calls of `addHandlerFields`
with the same module name, replacer and codes, whatever the random source
gives, return lists of the same length that are the same rules before and
after the rule whose match text is `userExampleNO       = 1`, whose
replacement is `userExampleNO = n` with `0 <= n < 100`; so they agree at every
position but possibly that one.  `addDAOFields` takes nothing from the random
source, and when neither the model mark nor the dao mark is that match text,
none of its rules has it. -/
theorem randomness_confined {W E : Type} (n : Names) (adj : Str → Str) (M : Str)
    (r : Replacer W E) (w : W) (codes : Codes) (rnd1 rnd2 : Nat) :
    (addHandlerFields n adj rnd1 M r w codes).length
      = (addHandlerFields n adj rnd2 M r w codes).length ∧
    (∃ (A B : List Field) (k1 k2 : Nat), k1 < 100 ∧ k2 < 100 ∧
      addHandlerFields n adj rnd1 M r w codes
        = A ++ ⟨userExampleNO, "userExampleNO = ".toList ++ Nat.toDigits 10 k1, false⟩ :: B ∧
      addHandlerFields n adj rnd2 M r w codes
        = A ++ ⟨userExampleNO, "userExampleNO = ".toList ++ Nat.toDigits 10 k2, false⟩ :: B) ∧
    (∀ i : Nat,
      (addHandlerFields n adj rnd1 M r w codes)[i]?
        = (addHandlerFields n adj rnd2 M r w codes)[i]? ∨
      ∃ (f1 f2 : Field) (k1 k2 : Nat),
        (addHandlerFields n adj rnd1 M r w codes)[i]? = some f1 ∧
        (addHandlerFields n adj rnd2 M r w codes)[i]? = some f2 ∧
        f1.Old = userExampleNO ∧ f2.Old = userExampleNO ∧ k1 < 100 ∧ k2 < 100 ∧
        f1.New = "userExampleNO = ".toList ++ Nat.toDigits 10 k1 ∧
        f2.New = "userExampleNO = ".toList ++ Nat.toDigits 10 k2) ∧
    (n.modelFileMark ≠ userExampleNO → n.daoFileMark ≠ userExampleNO →
      ∀ f ∈ addDAOFields n M r w codes, f.Old ≠ userExampleNO) := by
  obtain ⟨A, B, hdec⟩ : ∃ A B : List Field, ∀ rnd : Nat,
      addHandlerFields n adj rnd M r w codes
        = A ++ ⟨userExampleNO, "userExampleNO = ".toList ++ Nat.toDigits 10 (rnd % 100),
            false⟩ :: B := by
    refine ⟨deleteFieldsMark r w n.modelFile startMark endMark
          ++ deleteFieldsMark r w n.daoFile startMark endMark
          ++ deleteFieldsMark r w n.daoTestFile startMark endMark
          ++ deleteFieldsMark r w n.handlerFile startMark endMark
          ++ deleteFieldsMark r w n.handlerTestFile startMark endMark
          ++ [⟨n.modelFileMark, codes.get n.CodeTypeModel, false⟩,
              ⟨n.daoFileMark, codes.get n.CodeTypeDAO, false⟩,
              ⟨n.handlerFileMark, adj (codes.get n.CodeTypeHandler), false⟩,
              ⟨n.selfPackageName ++ "/".toList ++ r.GetSourcePath w, M, false⟩,
              ⟨"github.com/zhufuyi/sponge".toList, M, false⟩],
        [⟨M ++ "/pkg".toList, "github.com/zhufuyi/sponge/pkg".toList, false⟩,
          ⟨"UserExample".toList, codes.get n.TableName, true⟩], ?_⟩
    intro rnd
    simp [addHandlerFields, userExampleNO]
  refine ⟨?_, ?_, ?_, ?_⟩
  · rw [hdec rnd1, hdec rnd2]
    simp
  · exact ⟨A, B, rnd1 % 100, rnd2 % 100, Nat.mod_lt _ (by decide), Nat.mod_lt _ (by decide),
      hdec rnd1, hdec rnd2⟩
  · intro i
    rw [hdec rnd1, hdec rnd2]
    by_cases hi : i = A.length
    · right
      refine ⟨⟨userExampleNO, "userExampleNO = ".toList ++ Nat.toDigits 10 (rnd1 % 100), false⟩,
        ⟨userExampleNO, "userExampleNO = ".toList ++ Nat.toDigits 10 (rnd2 % 100), false⟩,
        rnd1 % 100, rnd2 % 100, ?_, ?_, rfl, rfl, Nat.mod_lt _ (by decide),
        Nat.mod_lt _ (by decide), rfl, rfl⟩
      · rw [hi, List.getElem?_append_right (Nat.le_refl _), Nat.sub_self]
        simp
      · rw [hi, List.getElem?_append_right (Nat.le_refl _), Nat.sub_self]
        simp
    · left
      exact getElem?_append_cons_ne _ _ _ _ i hi
  · intro hm hd f hf
    simp only [addDAOFields, List.nil_append, List.mem_append, List.mem_cons,
      List.mem_singleton, List.not_mem_nil, or_false] at hf
    have hdel : ∀ file, f ∈ deleteFieldsMark r w file startMark endMark →
        f.Old ≠ userExampleNO := by
      intro file hmem heq
      have hp := deleteFieldsMark_old r w file startMark endMark f hmem
      rw [heq] at hp
      exact absurd (List.isPrefixOf_iff_prefix.mpr hp) (by decide)
    have hslash : ∀ a b : Str, a ++ "/".toList ++ b ≠ userExampleNO := by
      intro a b heq
      have : '/' ∈ a ++ "/".toList ++ b := by simp
      rw [heq] at this
      exact slash_not_mem_userExampleNO this
    rcases hf with ((hf | hf) | hf) | hf
    · exact hdel _ hf
    · exact hdel _ hf
    · exact hdel _ hf
    · rcases hf with hf | hf | hf | hf | hf | hf <;> subst hf
      · exact hm
      · exact hd
      · exact hslash _ _
      · simp only; decide
      · intro heq
        have : '/' ∈ M ++ "/pkg".toList := by simp
        simp only at heq
        rw [heq] at this
        exact slash_not_mem_userExampleNO this
      · simp only; decide

/-- Two draws, 7 and 155, for the names of the template: the two lists of
`addHandlerFields` differ in the rule of the number and nowhere else, and no
rule of `addDAOFields` matches `userExampleNO       = 1`. -/
theorem randomness_confined_witness :
    (addHandlerFields demoNames (fun s => s) 7 "foo".toList (demoReplacer [] false false) 0
        [])[5]?
      = some ⟨userExampleNO, "userExampleNO = 7".toList, false⟩ ∧
    (addHandlerFields demoNames (fun s => s) 155 "foo".toList (demoReplacer [] false false) 0
        [])[5]?
      = some ⟨userExampleNO, "userExampleNO = 55".toList, false⟩ ∧
    (∀ f ∈ addDAOFields demoNames "foo".toList (demoReplacer [] false false) 0 [],
      f.Old ≠ userExampleNO) :=
  ⟨by decide, by decide,
    (randomness_confined demoNames (fun s => s) "foo".toList (demoReplacer [] false false) 0 []
      7 155).2.2.2 (by decide) (by decide)⟩

/-! ## The output directory of a run -/

section OutPathLemmas

variable {W E : Type}

/-- Once the output path is not empty the loop never changes it and hands it
to every materialization. -/
theorem tableLoop_outPath_fixed (gen : Args → W → Except E Codes × Args × W)
    (mat : Str → Codes → Str → W → GenResult W E) (M : Str) :
    ∀ (segs : List Str) (st : LoopState W), st.outPath ≠ [] →
      (tableLoop gen mat M segs st).state.outPath = st.outPath ∧
      ∀ m c o, Event.materialize m c o ∈ (tableLoop gen mat M segs st).trace →
        o = st.outPath := by
  intro segs
  induction segs with
  | nil =>
    intro st _
    exact ⟨rfl, by intro m c o h; simp [tableLoop] at h⟩
  | cons t rest ih =>
    intro st hne
    by_cases ht : t = []
    · subst ht
      rw [tableLoop_cons_empty]
      exact ih st hne
    · rcases hg : gen { st.sqlArgs with DBTable := t } st.world with ⟨res, a1, w1⟩
      cases res with
      | error e0 =>
        rw [tableLoop_cons_genErr gen mat M t rest st ht e0 a1 w1 hg]
        exact ⟨rfl, by intro m c o h; simp at h⟩
      | ok codes =>
        cases hm : (mat M codes st.outPath w1).err with
        | some e1 =>
          rw [tableLoop_cons_matErr gen mat M t rest st ht codes a1 w1 e1 hg hm]
          refine ⟨rfl, ?_⟩
          intro m c o h
          simp at h
          exact h.2.2
        | none =>
          rw [tableLoop_cons_ok gen mat M t rest st ht codes a1 w1 hg hm]
          have hout : (if st.outPath = [] then (mat M codes st.outPath w1).dir
              else st.outPath) = st.outPath := by simp [hne]
          rw [hout]
          obtain ⟨h1, h2⟩ := ih ⟨(mat M codes st.outPath w1).world, a1, st.outPath⟩ hne
          refine ⟨h1, ?_⟩
          intro m c o h
          simp only [List.mem_cons, Event.materialize.injEq, reduceCtorEq, false_or] at h
          rcases h with h | h
          · exact h.2.2
          · exact h2 m c o h

/-- Empty names at the front of the list are passed over. -/
theorem tableLoop_skip_empty (gen : Args → W → Except E Codes × Args × W)
    (mat : Str → Codes → Str → W → GenResult W E) (M : Str) (pre rest : List Str)
    (st : LoopState W) (hpre : ∀ s ∈ pre, s = []) :
    tableLoop gen mat M (pre ++ rest) st = tableLoop gen mat M rest st := by
  rw [tableLoop_append gen mat M rest pre st st [] (tableLoop_all_empty gen mat M pre st hpre)]
  rfl

/-- The output path in the part of `RunE` after the module name is settled. -/
theorem runTables_outPath (gen : Args → W → Except E Codes × Args × W)
    (mat : Str → Codes → Str → W → GenResult W E) (kind M dbTables : Str) (st : LoopState W)
    (h : (runTables gen mat kind M dbTables st).err = none) :
    (st.outPath ≠ [] →
      (∀ m c o, Event.materialize m c o ∈ (runTables gen mat kind M dbTables st).trace →
        o = st.outPath) ∧
      (runTables gen mat kind M dbTables st).stdout = [successLine kind st.outPath]) ∧
    (st.outPath = [] →
      ((∀ s ∈ splitComma dbTables, s = []) →
        (runTables gen mat kind M dbTables st).trace = [] ∧
        (runTables gen mat kind M dbTables st).stdout = [successLine kind []]) ∧
      (∀ (pre post : List Str) (t : Str), splitComma dbTables = pre ++ t :: post →
        (∀ s ∈ pre, s = []) → t ≠ [] →
        ∃ (codes : Codes) (a1 : Args) (w1 : W) (rest : List Event),
          gen { st.sqlArgs with DBTable := t } st.world = (.ok codes, a1, w1) ∧
          (mat M codes [] w1).err = none ∧
          (runTables gen mat kind M dbTables st).trace
            = .generate t :: .materialize M codes [] :: rest ∧
          ((mat M codes [] w1).dir ≠ [] →
            (∀ m c o, Event.materialize m c o ∈ rest → o = (mat M codes [] w1).dir) ∧
            (runTables gen mat kind M dbTables st).stdout
              = [successLine kind (mat M codes [] w1).dir]))) := by
  rw [runTables_err] at h
  have hstd := runTables_stdout_of_ok gen mat kind M dbTables st h
  constructor
  · intro hne
    obtain ⟨h1, h2⟩ := tableLoop_outPath_fixed gen mat M (splitComma dbTables) st hne
    refine ⟨?_, ?_⟩
    · intro m c o hm
      rw [runTables_trace] at hm
      exact h2 m c o hm
    · rw [hstd, h1]
      rfl
  · intro hemp
    constructor
    · intro hall
      rw [runTables_trace, hstd, tableLoop_all_empty gen mat M _ st hall, hemp]
      exact ⟨rfl, rfl⟩
    · intro pre post t hsplit hpre ht
      rw [runTables_trace, hstd]
      rw [hsplit, tableLoop_skip_empty gen mat M pre (t :: post) st hpre] at h ⊢
      rcases hg : gen { st.sqlArgs with DBTable := t } st.world with ⟨res, a1, w1⟩
      cases res with
      | error e0 =>
        rw [tableLoop_cons_genErr gen mat M t post st ht e0 a1 w1 hg] at h
        simp at h
      | ok codes =>
        cases hm : (mat M codes st.outPath w1).err with
        | some e1 =>
          rw [tableLoop_cons_matErr gen mat M t post st ht codes a1 w1 e1 hg hm] at h
          simp at h
        | none =>
          rw [tableLoop_cons_ok gen mat M t post st ht codes a1 w1 hg hm]
          rw [hemp] at hm ⊢
          refine ⟨codes, a1, w1, _, rfl, hm, rfl, ?_⟩
          intro hd
          simp only [if_true]
          obtain ⟨h1, h2⟩ := tableLoop_outPath_fixed gen mat M post
            ⟨(mat M codes [] w1).world, a1, (mat M codes [] w1).dir⟩ hd
          refine ⟨h2, ?_⟩
          rw [h1]
          rfl

end OutPathLemmas

/-- C11, as stated, fails.  With `--out` empty and the single table `t1`, the
table is materialized with an empty output path while the success line
reports the directory the run returned, `dao_150405`, not the empty path used
for that last table.  With a replacer whose first run returns an empty
directory, the third of three tables is materialized with `dao_150405`, which
is not the directory returned by the first run. -/
theorem out_dir_shared_counterexample :
    (DaoCommand.RunE (demoEnv [] (some (demoReplacer [] false false))) "micro".toList
        ⟨"foo".toList, [], "t1".toList, false, demoArgs⟩ 0).trace
      = [.generate "t1".toList,
         .materialize "foo".toList [("tableName".toList, "t1".toList)] []] ∧
    (DaoCommand.RunE (demoEnv [] (some (demoReplacer [] false false))) "micro".toList
        ⟨"foo".toList, [], "t1".toList, false, demoArgs⟩ 0).stdout
      = [successLine "dao".toList "dao_150405".toList] ∧
    successLine "dao".toList "dao_150405".toList ≠ successLine "dao".toList [] ∧
    (runGenDaoCommand (demoEnv [] (some lateDirReplacer)) "foo".toList false
        [("tableName".toList, "t1".toList)] [] 0).dir = [] ∧
    (DaoCommand.RunE (demoEnv [] (some lateDirReplacer)) "micro".toList
        ⟨"foo".toList, [], "t1,t2,t3".toList, false, demoArgs⟩ 0).trace
      = [.generate "t1".toList,
         .materialize "foo".toList [("tableName".toList, "t1".toList)] [],
         .generate "t2".toList,
         .materialize "foo".toList [("tableName".toList, "t2".toList)] [],
         .generate "t3".toList,
         .materialize "foo".toList [("tableName".toList, "t3".toList)]
           "dao_150405".toList] := by
  decide

/-- C11, amended. For a run of a `RunE` closure that returned nil: if `--out`
is not empty, every table is materialized with that path and the success line
reports it, also when no table was processed.  If `--out` is empty and no table
was processed, the success line reports the empty path; otherwise the first
non-empty table is materialized with the empty path, and when the directory
that run returns is not empty, every later table is materialized with that
directory and the success line reports it (the directory of the first run, not
the empty path the first table was given). -/
theorem out_dir_shared {W E : Type} (env : Env W E) (parentName : Str) (rnd : W → Nat) :
    (∀ (fd : DaoFlags) (w : W), (DaoCommand.RunE env parentName fd w).err = none →
      (fd.outPath ≠ [] →
        (∀ m c o, Event.materialize m c o ∈ (DaoCommand.RunE env parentName fd w).trace →
          o = fd.outPath) ∧
        (DaoCommand.RunE env parentName fd w).stdout
          = [successLine "dao".toList fd.outPath]) ∧
      (fd.outPath = [] →
        ((∀ s ∈ splitComma fd.dbTables, s = []) →
          (DaoCommand.RunE env parentName fd w).trace = [] ∧
          (DaoCommand.RunE env parentName fd w).stdout = [successLine "dao".toList []]) ∧
        (∀ (pre post : List Str) (t : Str), splitComma fd.dbTables = pre ++ t :: post →
          (∀ s ∈ pre, s = []) → t ≠ [] →
          ∃ (M : Str) (codes : Codes) (a1 : Args) (w1 : W) (rest : List Event),
            env.Generate { fd.sqlArgs with DBTable := t } w = (.ok codes, a1, w1) ∧
            (runGenDaoCommand env M fd.isIncludeInitDB codes [] w1).err = none ∧
            (DaoCommand.RunE env parentName fd w).trace
              = .generate t :: .materialize M codes [] :: rest ∧
            ((runGenDaoCommand env M fd.isIncludeInitDB codes [] w1).dir ≠ [] →
              (∀ m c o, Event.materialize m c o ∈ rest →
                o = (runGenDaoCommand env M fd.isIncludeInitDB codes [] w1).dir) ∧
              (DaoCommand.RunE env parentName fd w).stdout
                = [successLine "dao".toList
                    (runGenDaoCommand env M fd.isIncludeInitDB codes [] w1).dir])))) ∧
    (∀ (fh : HandlerFlags) (w : W), (HandlerCommand.RunE env rnd fh w).err = none →
      (fh.outPath ≠ [] →
        (∀ m c o, Event.materialize m c o ∈ (HandlerCommand.RunE env rnd fh w).trace →
          o = fh.outPath) ∧
        (HandlerCommand.RunE env rnd fh w).stdout
          = [successLine "handler".toList fh.outPath]) ∧
      (fh.outPath = [] →
        ((∀ s ∈ splitComma fh.dbTables, s = []) →
          (HandlerCommand.RunE env rnd fh w).trace = [] ∧
          (HandlerCommand.RunE env rnd fh w).stdout = [successLine "handler".toList []]) ∧
        (∀ (pre post : List Str) (t : Str), splitComma fh.dbTables = pre ++ t :: post →
          (∀ s ∈ pre, s = []) → t ≠ [] →
          ∃ (M : Str) (codes : Codes) (a1 : Args) (w1 : W) (rest : List Event),
            env.Generate { fh.sqlArgs with DBTable := t } w = (.ok codes, a1, w1) ∧
            (runGenHandlerCommand env (rnd w1) M codes [] w1).err = none ∧
            (HandlerCommand.RunE env rnd fh w).trace
              = .generate t :: .materialize M codes [] :: rest ∧
            ((runGenHandlerCommand env (rnd w1) M codes [] w1).dir ≠ [] →
              (∀ m c o, Event.materialize m c o ∈ rest →
                o = (runGenHandlerCommand env (rnd w1) M codes [] w1).dir) ∧
              (HandlerCommand.RunE env rnd fh w).stdout
                = [successLine "handler".toList
                    (runGenHandlerCommand env (rnd w1) M codes [] w1).dir])))) := by
  constructor
  · intro fd w h
    have key : ∀ M : Str,
        DaoCommand.RunE env parentName fd w
          = runTables env.Generate (fun m c o => runGenDaoCommand env m fd.isIncludeInitDB c o)
              "dao".toList M fd.dbTables ⟨w, fd.sqlArgs, fd.outPath⟩ →
        _ := fun M hM => runTables_outPath env.Generate
          (fun m c o => runGenDaoCommand env m fd.isIncludeInitDB c o) "dao".toList M
          fd.dbTables ⟨w, fd.sqlArgs, fd.outPath⟩ (hM ▸ h)
    by_cases h1 : (env.getNamesFromOutDir fd.outPath w).1 = []
    · by_cases h2 : fd.moduleName = []
      · simp [DaoCommand.RunE, h1, h2] at h
      · have hr : DaoCommand.RunE env parentName fd w
            = runTables env.Generate (fun m c o => runGenDaoCommand env m fd.isIncludeInitDB c o)
                "dao".toList fd.moduleName fd.dbTables ⟨w, fd.sqlArgs, fd.outPath⟩ := by
          simp [DaoCommand.RunE, h1, h2]
        obtain ⟨ka, kb⟩ := key _ hr
        rw [hr]
        refine ⟨ka, fun he => ⟨(kb he).1, ?_⟩⟩
        intro pre post t hs hp ht
        obtain ⟨codes, a1, w1, rest, x1, x2, x3, x4⟩ := (kb he).2 pre post t hs hp ht
        exact ⟨fd.moduleName, codes, a1, w1, rest, x1, x2, x3, x4⟩
    · have hr : DaoCommand.RunE env parentName fd w
          = runTables env.Generate (fun m c o => runGenDaoCommand env m fd.isIncludeInitDB c o)
              "dao".toList (env.getNamesFromOutDir fd.outPath w).1 fd.dbTables
              ⟨w, fd.sqlArgs, fd.outPath⟩ := by
        simp [DaoCommand.RunE, h1]
      obtain ⟨ka, kb⟩ := key _ hr
      rw [hr]
      refine ⟨ka, fun he => ⟨(kb he).1, ?_⟩⟩
      intro pre post t hs hp ht
      obtain ⟨codes, a1, w1, rest, x1, x2, x3, x4⟩ := (kb he).2 pre post t hs hp ht
      exact ⟨(env.getNamesFromOutDir fd.outPath w).1, codes, a1, w1, rest, x1, x2, x3, x4⟩
  · intro fh w h
    have key : ∀ M : Str,
        HandlerCommand.RunE env rnd fh w
          = runTables env.Generate
              (fun m c o w1 => runGenHandlerCommand env (rnd w1) m c o w1)
              "handler".toList M fh.dbTables ⟨w, fh.sqlArgs, fh.outPath⟩ →
        _ := fun M hM => runTables_outPath env.Generate
          (fun m c o w1 => runGenHandlerCommand env (rnd w1) m c o w1) "handler".toList M
          fh.dbTables ⟨w, fh.sqlArgs, fh.outPath⟩ (hM ▸ h)
    by_cases h1 : (env.getNamesFromOutDir fh.outPath w).1 = []
    · by_cases h2 : fh.moduleName = []
      · simp [HandlerCommand.RunE, h1, h2] at h
      · have hr : HandlerCommand.RunE env rnd fh w
            = runTables env.Generate
                (fun m c o w1 => runGenHandlerCommand env (rnd w1) m c o w1)
                "handler".toList fh.moduleName fh.dbTables ⟨w, fh.sqlArgs, fh.outPath⟩ := by
          simp [HandlerCommand.RunE, h1, h2]
        obtain ⟨ka, kb⟩ := key _ hr
        rw [hr]
        refine ⟨ka, fun he => ⟨(kb he).1, ?_⟩⟩
        intro pre post t hs hp ht
        obtain ⟨codes, a1, w1, rest, x1, x2, x3, x4⟩ := (kb he).2 pre post t hs hp ht
        exact ⟨fh.moduleName, codes, a1, w1, rest, x1, x2, x3, x4⟩
    · have hr : HandlerCommand.RunE env rnd fh w
          = runTables env.Generate
              (fun m c o w1 => runGenHandlerCommand env (rnd w1) m c o w1)
              "handler".toList (env.getNamesFromOutDir fh.outPath w).1 fh.dbTables
              ⟨w, fh.sqlArgs, fh.outPath⟩ := by
        simp [HandlerCommand.RunE, h1]
      obtain ⟨ka, kb⟩ := key _ hr
      rw [hr]
      refine ⟨ka, fun he => ⟨(kb he).1, ?_⟩⟩
      intro pre post t hs hp ht
      obtain ⟨codes, a1, w1, rest, x1, x2, x3, x4⟩ := (kb he).2 pre post t hs hp ht
      exact ⟨(env.getNamesFromOutDir fh.outPath w).1, codes, a1, w1, rest, x1, x2, x3, x4⟩

/-- The run `--db-table=t1,t2 --module-name=foo --out=srv` of the `dao`
command: both tables are materialized with `srv` and the success line reports
`srv`. -/
theorem out_dir_shared_witness :
    (∀ m c o, Event.materialize m c o ∈
        (DaoCommand.RunE (demoEnv [] (some (demoReplacer [] false false))) "micro".toList
          ⟨"foo".toList, "srv".toList, "t1,t2".toList, false, demoArgs⟩ 0).trace →
      o = "srv".toList) ∧
    (DaoCommand.RunE (demoEnv [] (some (demoReplacer [] false false))) "micro".toList
        ⟨"foo".toList, "srv".toList, "t1,t2".toList, false, demoArgs⟩ 0).stdout
      = [successLine "dao".toList "srv".toList] :=
  ((out_dir_shared (demoEnv [] (some (demoReplacer [] false false))) "micro".toList
      (fun _ => 7)).1
    ⟨"foo".toList, "srv".toList, "t1,t2".toList, false, demoArgs⟩ 0 (by decide)).1 (by decide)

/-! ## The library paths under the module rewrite -/

section PkgLemmas

/-- Before the position `bytes.Index` returns there is no occurrence. -/
theorem index_some_min (sub : Str) :
    ∀ (s : Str) (n : Nat), index s sub = some n → ∀ i, i < n → ¬ sub <+: s.drop i := by
  intro s
  induction s with
  | nil =>
    intro n h i hi
    unfold index at h
    by_cases hs : sub = []
    · simp [hs] at h
      omega
    · simp [hs] at h
  | cons c cs ih =>
    intro n h i hi hp
    unfold index at h
    by_cases h0 : sub.isPrefixOf (c :: cs) = true
    · simp [h0] at h
      omega
    · simp only [h0] at h
      cases hj : index cs sub with
      | none => simp [hj] at h
      | some j =>
        simp [hj] at h
        subst h
        cases i with
        | zero => exact h0 (List.isPrefixOf_iff_prefix.mpr (by simpa using hp))
        | succ k => exact ih j hj k (by omega) (by simpa using hp)

/-- When the first occurrence of `P` in `X ++ P` is the one at the end of `X`,
no occurrence of `P` in `X ++ P ++ Y` starts inside `X`. -/
theorem no_early_of_index (P X Y : Str) (h : index (X ++ P) P = some X.length) :
    ∀ i, i < X.length → ¬ P <+: (X ++ (P ++ Y)).drop i := by
  intro i hi hp
  rw [List.drop_append_of_le_length (Nat.le_of_lt hi)] at hp
  have h1 : X.drop i ++ P <+: X.drop i ++ (P ++ Y) := by
    rw [← List.append_assoc]; exact List.prefix_append _ _
  have h2 : P <+: X.drop i ++ P :=
    List.prefix_of_prefix_length_le hp h1 (by simp)
  have h3 := index_some_min P (X ++ P) X.length h i hi
  rw [List.drop_append_of_le_length (Nat.le_of_lt hi)] at h3
  exact h3 h2

/-- The root rule passes over `/pkg` when the text after it does not continue
the final `g` to another occurrence of the root. -/
theorem replaceGo_root_pkg (M y : Str) (hy : spongeRoot.isPrefixOf ('g' :: y) = false) :
    replaceGo spongeRoot M 0 ("/pkg".toList ++ y) = "/pkg".toList ++ replaceGo spongeRoot M 0 y := by
  have e : "/pkg".toList ++ y = '/' :: 'p' :: 'k' :: 'g' :: y := rfl
  have h1 : ∀ s : Str, spongeRoot.isPrefixOf ('/' :: s) = false := fun s => rfl
  have h2 : ∀ s : Str, spongeRoot.isPrefixOf ('p' :: s) = false := fun s => rfl
  have h3 : ∀ s : Str, spongeRoot.isPrefixOf ('k' :: s) = false := fun s => rfl
  rw [e, replaceGo, replaceGo, replaceGo, replaceGo]
  simp [h1, h2, h3, hy]

/-- Without an occurrence of `github.com/zhufuyi/sponge/pkg` the described
result is the result of the root rule alone. -/
theorem pkgKeepScan_eq_replaceGo (M : Str) :
    ∀ (s : Str) (k : Nat),
      (∀ i, i ≤ s.length → ¬ (spongeRoot ++ "/pkg".toList) <+: s.drop i) →
      pkgKeepScan M k s = replaceGo spongeRoot M k s := by
  intro s
  induction s with
  | nil => intro k _; cases k <;> rfl
  | cons c cs ih =>
    intro k h
    have hcs : ∀ i, i ≤ cs.length → ¬ (spongeRoot ++ "/pkg".toList) <+: cs.drop i := by
      intro i hi
      have := h (i + 1) (by simpa using hi)
      simpa using this
    cases k with
    | succ k =>
      rw [pkgKeepScan, replaceGo]
      exact ih k hcs
    | zero =>
      have h0 : ¬ (spongeRoot ++ "/pkg".toList).isPrefixOf (c :: cs) = true := by
        intro hp
        exact h 0 (by simp) (by simpa using List.isPrefixOf_iff_prefix.mp hp)
      rw [pkgKeepScan, replaceGo, if_neg h0]
      by_cases h1 : spongeRoot.isPrefixOf (c :: cs) = true
      · rw [if_pos h1, if_pos h1, ih _ hcs]
      · rw [if_neg h1, if_neg h1, ih _ hcs]

theorem modulePkg_ne_nil (M : Str) : M ++ "/pkg".toList ≠ [] := by simp

theorem applyFields_moduleRules (M c : Str) :
    applyFields (moduleRules M) c
      = replaceGo (M ++ "/pkg".toList) (spongeRoot ++ "/pkg".toList) 0
          (replaceGo spongeRoot M 0 c) := by
  simp only [applyFields, moduleRules, List.foldl, replaceAll]
  have h1 : ("github.com/zhufuyi/sponge".toList = ([] : Str)) = False := by
    simp
  simp only [h1, if_false, modulePkg_ne_nil M]
  rfl

end PkgLemmas

/-- C12, as stated, fails: for the module name `foo`, a content that imports
`foo/pkg/util` holds no occurrence of `github.com/zhufuyi/sponge`, so the
described result is the content as it is; the two rules turn the import into
`github.com/zhufuyi/sponge/pkg/util`, and so does the whole list of
`addDAOFields`. -/
theorem pkg_imports_counterexample :
    contains "\t\"foo/pkg/util\"\n".toList spongeRoot = false ∧
    pkgKeepRewrite "foo".toList "\t\"foo/pkg/util\"\n".toList = "\t\"foo/pkg/util\"\n".toList ∧
    applyFields (moduleRules "foo".toList) "\t\"foo/pkg/util\"\n".toList
      = "\t\"github.com/zhufuyi/sponge/pkg/util\"\n".toList ∧
    applyFields (moduleRules "foo".toList) "\t\"foo/pkg/util\"\n".toList
      ≠ pkgKeepRewrite "foo".toList "\t\"foo/pkg/util\"\n".toList ∧
    applyFields
        (addDAOFields demoNames "foo".toList (demoReplacer [] false false) 0
          [("tableName".toList, "Order".toList)])
        "\t\"foo/pkg/util\"\n".toList
      = "\t\"github.com/zhufuyi/sponge/pkg/util\"\n".toList := by
  decide

/-- C12, amended. The two rules `github.com/zhufuyi/sponge` to module name and
module name + `/pkg` to `github.com/zhufuyi/sponge/pkg` stand in this order in
both rule lists.  Applied in this order to `x ++ github.com/zhufuyi/sponge/pkg
++ y`, where module name + `/pkg` does not occur in the rewritten `x` nor
across its end, and `y` does not continue the last `g` to another occurrence of
the root, they give `x` with every occurrence of the root replaced by the
module name, the library path as it was, and `y` treated by the two rules in
the same way.  On a content in which module name + `/pkg` does not occur after
the first rule they give the content with every occurrence of the root
replaced by the module name, which is the described result when the content
holds no library path. -/
theorem pkg_imports_survive (M x y : Str)
    (hx : index (replaceAll x spongeRoot M ++ (M ++ "/pkg".toList)) (M ++ "/pkg".toList)
      = some (replaceAll x spongeRoot M).length)
    (hy : spongeRoot.isPrefixOf ('g' :: y) = false) :
    applyFields (moduleRules M) (x ++ (spongeRoot ++ "/pkg".toList) ++ y)
      = replaceAll x spongeRoot M ++ (spongeRoot ++ "/pkg".toList)
          ++ applyFields (moduleRules M) y ∧
    (∀ c : Str, contains (replaceAll c spongeRoot M) (M ++ "/pkg".toList) = false →
      applyFields (moduleRules M) c = replaceAll c spongeRoot M ∧
      (contains c (spongeRoot ++ "/pkg".toList) = false →
        applyFields (moduleRules M) c = pkgKeepRewrite M c)) ∧
    (∀ {W E : Type} (n : Names) (adj : Str → Str) (rnd : Nat) (r : Replacer W E) (w : W)
        (codes : Codes),
      (∃ A B : List Field, addDAOFields n M r w codes = A ++ moduleRules M ++ B) ∧
      (∃ (A B : List Field) (f : Field),
        moduleRules M = [⟨spongeRoot, M, false⟩,
          ⟨M ++ "/pkg".toList, spongeRoot ++ "/pkg".toList, false⟩] ∧
        addHandlerFields n adj rnd M r w codes
          = A ++ [⟨spongeRoot, M, false⟩, f,
              ⟨M ++ "/pkg".toList, spongeRoot ++ "/pkg".toList, false⟩] ++ B)) := by
  have hR : ∀ c : Str, replaceAll c spongeRoot M = replaceGo spongeRoot M 0 c := by
    intro c
    unfold replaceAll
    simp only [spongeRoot_ne_nil, if_false]
  refine ⟨?_, ?_, ?_⟩
  · rw [applyFields_moduleRules, applyFields_moduleRules]
    rw [hR] at hx ⊢
    have e1 : x ++ (spongeRoot ++ "/pkg".toList) ++ y
        = x ++ (spongeRoot ++ ("/pkg".toList ++ y)) := by
      simp [List.append_assoc]
    rw [e1, replaceGo_split spongeRoot M _ spongeRoot_ne_nil spongeRoot_borderFree
      x.length x (Nat.le_refl _), replaceGo_root_pkg M y hy]
    have e2 : replaceGo spongeRoot M 0 x ++ (M ++ ("/pkg".toList ++ replaceGo spongeRoot M 0 y))
        = replaceGo spongeRoot M 0 x
          ++ ((M ++ "/pkg".toList) ++ replaceGo spongeRoot M 0 y) := by
      simp [List.append_assoc]
    rw [e2, replaceGo_first (M ++ "/pkg".toList) (spongeRoot ++ "/pkg".toList) _
      (modulePkg_ne_nil M) (replaceGo spongeRoot M 0 x)
      (no_early_of_index _ _ _ hx)]
    simp [List.append_assoc]
  · intro c hc
    have h1 : applyFields (moduleRules M) c = replaceAll c spongeRoot M := by
      rw [applyFields_moduleRules, hR]
      rw [hR] at hc
      exact replaceGo_none _ _ _ (contains_eq_false _ _ hc)
    refine ⟨h1, ?_⟩
    intro hl
    rw [h1, hR]
    exact (pkgKeepScan_eq_replaceGo M c 0 (contains_eq_false _ c hl)).symm
  · intro W E n adj rnd r w codes
    constructor
    · exact ⟨deleteFieldsMark r w n.modelFile startMark endMark
          ++ deleteFieldsMark r w n.daoFile startMark endMark
          ++ deleteFieldsMark r w n.daoTestFile startMark endMark
          ++ [⟨n.modelFileMark, codes.get n.CodeTypeModel, false⟩,
              ⟨n.daoFileMark, codes.get n.CodeTypeDAO, false⟩,
              ⟨n.selfPackageName ++ "/".toList ++ r.GetSourcePath w, M, false⟩],
        [⟨"UserExample".toList, codes.get n.TableName, true⟩],
        by simp [addDAOFields, moduleRules]⟩
    · exact ⟨deleteFieldsMark r w n.modelFile startMark endMark
          ++ deleteFieldsMark r w n.daoFile startMark endMark
          ++ deleteFieldsMark r w n.daoTestFile startMark endMark
          ++ deleteFieldsMark r w n.handlerFile startMark endMark
          ++ deleteFieldsMark r w n.handlerTestFile startMark endMark
          ++ [⟨n.modelFileMark, codes.get n.CodeTypeModel, false⟩,
              ⟨n.daoFileMark, codes.get n.CodeTypeDAO, false⟩,
              ⟨n.handlerFileMark, adj (codes.get n.CodeTypeHandler), false⟩,
              ⟨n.selfPackageName ++ "/".toList ++ r.GetSourcePath w, M, false⟩],
        [⟨"UserExample".toList, codes.get n.TableName, true⟩],
        ⟨"userExampleNO       = 1".toList,
          "userExampleNO = ".toList ++ Nat.toDigits 10 (rnd % 100), false⟩,
        rfl, by simp [addHandlerFields, spongeRoot]⟩

/-- The import lines 11 to 13 of the template
`internal/handler/userExample_test.go` under the module name `foo`: the
`internal` path is rewritten and the library path stays. -/
theorem pkg_imports_survive_witness :
    applyFields (moduleRules "foo".toList)
        ("\t\"github.com/zhufuyi/sponge/internal/types\"\n\n\t\"".toList
          ++ (spongeRoot ++ "/pkg".toList) ++ "/gohttp\"\n".toList)
      = "\t\"foo/internal/types\"\n\n\t\"github.com/zhufuyi/sponge/pkg/gohttp\"\n".toList :=
  (pkg_imports_survive "foo".toList
    "\t\"github.com/zhufuyi/sponge/internal/types\"\n\n\t\"".toList "/gohttp\"\n".toList
    (by decide) (by decide)).1.trans (by decide)

/-! ## Rules that leave a part of the buffer alone -/

section LocalityLemmas

theorem replaceAll_eq_replaceGo (s old new : Str) (hne : old ≠ []) :
    replaceAll s old new = replaceGo old new 0 s := by
  unfold replaceAll
  simp only [hne, if_false]

/-- The scan of `strings.ReplaceAll` treats `X` and `rest` apart when no
occurrence starts inside `X` and ends beyond it. -/
theorem replaceGo_boundary (old new rest : Str) (hne : old ≠ []) :
    ∀ (k : Nat) (X : Str), X.length ≤ k →
      (∀ i, i < X.length → X.length < i + old.length → ¬ old <+: (X ++ rest).drop i) →
      replaceGo old new 0 (X ++ rest) = replaceGo old new 0 X ++ replaceGo old new 0 rest := by
  intro k
  induction k with
  | zero =>
    intro X hX _
    have hx0 : X = [] := List.length_eq_zero.mp (Nat.le_zero.mp hX)
    subst hx0
    rfl
  | succ k ih =>
    intro X hX hns
    cases X with
    | nil => rfl
    | cons c X =>
      by_cases hp : old <+: (c :: X) ++ rest
      · by_cases hle : old.length ≤ (c :: X).length
        · have h1 : old <+: c :: X :=
            List.prefix_of_prefix_length_le hp (List.prefix_append _ _) hle
          obtain ⟨t, ht⟩ := h1
          have hol : 0 < old.length := List.length_pos.mpr hne
          have hlen : (c :: X).length = old.length + t.length := by
            rw [← ht, List.length_append]
          have htl : t.length ≤ k := by
            simp only [List.length_cons] at hX hlen
            omega
          have hns' : ∀ i, i < t.length → t.length < i + old.length →
              ¬ old <+: (t ++ rest).drop i := by
            intro i hi1 hi2 hpi
            apply hns (old.length + i) (by omega) (by omega)
            rw [← ht, List.append_assoc, List.drop_append]
            exact hpi
          rw [← ht, List.append_assoc, replaceGo_head old new _ hne,
            replaceGo_head old new t hne, ih t htl hns', List.append_assoc]
        · exact absurd (by simpa using hp)
            (hns 0 (by simp) (by simpa using Nat.lt_of_not_le hle))
      · have h0 : ¬ old.isPrefixOf (c :: (X ++ rest)) = true := by
          intro h
          exact hp (by simpa using List.isPrefixOf_iff_prefix.mp h)
        have h1 : ¬ old.isPrefixOf (c :: X) = true := by
          intro h
          exact hp ((List.isPrefixOf_iff_prefix.mp h).trans (List.prefix_append _ _))
        have hxl : X.length ≤ k := by simpa using hX
        have hns' : ∀ i, i < X.length → X.length < i + old.length →
            ¬ old <+: (X ++ rest).drop i := by
          intro i hi1 hi2 hpi
          apply hns (i + 1) (by simpa using hi1) (by simp only [List.length_cons]; omega)
          simpa using hpi
        rw [List.cons_append, replaceGo, replaceGo]
        simp [h0, h1, ih X hxl hns']

/-- The scan copies a part in which no occurrence starts. -/
theorem replaceGo_within (old new rest : Str) :
    ∀ m : Str, (∀ i, i < m.length → ¬ old <+: (m ++ rest).drop i) →
      replaceGo old new 0 (m ++ rest) = m ++ replaceGo old new 0 rest := by
  intro m
  induction m with
  | nil => intro _; rfl
  | cons c m ih =>
    intro h
    have h0 : ¬ old.isPrefixOf (c :: (m ++ rest)) = true := by
      intro hp
      exact h 0 (by simp) (by simpa using List.isPrefixOf_iff_prefix.mp hp)
    have h1 := ih (fun i hi => by
      have := h (i + 1) (by simpa using hi)
      simpa using this)
    rw [List.cons_append, replaceGo]
    simp [h0, h1]

theorem straddles_spec (old X rest : Str) (h : straddles old X rest = false) :
    ∀ i, i < X.length → X.length < i + old.length → ¬ old <+: (X ++ rest).drop i := by
  intro i hi1 hi2 hp
  unfold straddles at h
  rw [List.any_eq_false] at h
  have := h i (List.mem_range.mpr hi1)
  simp only [Bool.and_eq_true, decide_eq_true_eq, not_and, Bool.not_eq_true] at this
  have h2 := this hi2
  rw [List.isPrefixOf_iff_prefix.mpr hp] at h2
  exact absurd h2 (by decide)

theorem startsWithin_spec (old m rest : Str) (h : startsWithin old m rest = false) :
    ∀ i, i < m.length → ¬ old <+: (m ++ rest).drop i := by
  intro i hi hp
  unfold startsWithin at h
  rw [List.any_eq_false] at h
  have := h i (List.mem_range.mpr hi)
  rw [List.isPrefixOf_iff_prefix.mpr hp] at this
  exact this rfl

/-- A rule that leaves `m` alone treats what is before and after `m` apart. -/
theorem replaceAll_leftAlone (old new X m Y : Str) (hne : old ≠ [])
    (h1 : straddles old X (m ++ Y) = false) (h2 : startsWithin old m Y = false) :
    replaceAll (X ++ (m ++ Y)) old new
      = replaceAll X old new ++ (m ++ replaceAll Y old new) := by
  rw [replaceAll_eq_replaceGo _ _ _ hne, replaceAll_eq_replaceGo _ _ _ hne,
    replaceAll_eq_replaceGo _ _ _ hne,
    replaceGo_boundary old new (m ++ Y) hne X.length X (Nat.le_refl _)
      (straddles_spec old X (m ++ Y) h1),
    replaceGo_within old new Y m (startsWithin_spec old m Y h2)]

theorem applyFields_cons (f : Field) (fs : List Field) (buf : Str) :
    applyFields (f :: fs) buf = applyFields fs (replaceAll buf f.Old f.New) := rfl

/-- Rules that leave `m` alone give what they make of the text before `m`,
then `m`, then what they make of the text after it. -/
theorem applyFields_leftAlone :
    ∀ (fs : List Field) (X m Y : Str), leftAlone fs X m Y = true →
      applyFields fs (X ++ (m ++ Y)) = applyFields fs X ++ (m ++ applyFields fs Y) := by
  intro fs
  induction fs with
  | nil => intro X m Y _; rfl
  | cons f fs ih =>
    intro X m Y h
    unfold leftAlone at h
    simp only [Bool.and_eq_true, Bool.not_eq_true', List.isEmpty_eq_false] at h
    obtain ⟨⟨⟨h1, h2⟩, h3⟩, h4⟩ := h
    rw [applyFields_cons, applyFields_cons, applyFields_cons,
      replaceAll_leftAlone f.Old f.New X m Y h1 h2 h3]
    exact ih _ m _ h4

end LocalityLemmas

/-! ## The module rewrite after the whole rule list -/

section ModuleRewriteLemmas

theorem applyFields_through (pre post : List Field) (f : Field) (z : Str) :
    applyFields (pre ++ f :: post) z
      = applyFields post (replaceAll (applyFields pre z) f.Old f.New) := by
  rw [applyFields_append, applyFields_cons]

theorem replaceAll_root_split (M x y : Str) :
    replaceAll (x ++ (spongeRoot ++ y)) spongeRoot M
      = replaceAll x spongeRoot M ++ (M ++ replaceAll y spongeRoot M) := by
  rw [replaceAll_eq_replaceGo _ _ _ spongeRoot_ne_nil,
    replaceAll_eq_replaceGo _ _ _ spongeRoot_ne_nil,
    replaceAll_eq_replaceGo _ _ _ spongeRoot_ne_nil]
  exact replaceGo_split spongeRoot M y spongeRoot_ne_nil spongeRoot_borderFree x.length x
    (Nat.le_refl _)

/-- An occurrence of the root that the other rules leave alone is rewritten to
the module name by a list that holds the root rule. -/
theorem own_path_generic (pre post : List Field) (M x y : Str)
    (h1 : leftAlone pre x spongeRoot y = true)
    (h2 : leftAlone post (replaceAll (applyFields pre x) spongeRoot M) M
      (replaceAll (applyFields pre y) spongeRoot M) = true) :
    applyFields (pre ++ ⟨spongeRoot, M, false⟩ :: post) (x ++ (spongeRoot ++ y))
      = applyFields (pre ++ ⟨spongeRoot, M, false⟩ :: post) x
        ++ (M ++ applyFields (pre ++ ⟨spongeRoot, M, false⟩ :: post) y) := by
  rw [applyFields_through, applyFields_through, applyFields_through,
    applyFields_leftAlone pre x spongeRoot y h1]
  simp only
  rw [replaceAll_root_split, applyFields_leftAlone post _ M _ h2]

/-- A library path that the other rules leave alone reads the same after a
list that holds the root rule and, later, the rule that restores the path. -/
theorem lib_path_generic (pre mid post : List Field) (M x y : Str)
    (h1 : leftAlone pre x (spongeRoot ++ "/pkg".toList) y = true)
    (h2 : spongeRoot.isPrefixOf ('g' :: applyFields pre y) = false)
    (h3 : leftAlone mid (replaceAll (applyFields pre x) spongeRoot M) (M ++ "/pkg".toList)
      (replaceAll (applyFields pre y) spongeRoot M) = true)
    (h4 : straddles (M ++ "/pkg".toList)
      (applyFields mid (replaceAll (applyFields pre x) spongeRoot M))
      ((M ++ "/pkg".toList)
        ++ applyFields mid (replaceAll (applyFields pre y) spongeRoot M)) = false)
    (h5 : leftAlone post
      (replaceAll (applyFields mid (replaceAll (applyFields pre x) spongeRoot M))
        (M ++ "/pkg".toList) (spongeRoot ++ "/pkg".toList))
      (spongeRoot ++ "/pkg".toList)
      (replaceAll (applyFields mid (replaceAll (applyFields pre y) spongeRoot M))
        (M ++ "/pkg".toList) (spongeRoot ++ "/pkg".toList)) = true) :
    applyFields (pre ++ ⟨spongeRoot, M, false⟩ :: (mid ++ pkgRule M :: post))
        (x ++ ((spongeRoot ++ "/pkg".toList) ++ y))
      = applyFields (pre ++ ⟨spongeRoot, M, false⟩ :: (mid ++ pkgRule M :: post)) x
        ++ ((spongeRoot ++ "/pkg".toList)
          ++ applyFields (pre ++ ⟨spongeRoot, M, false⟩ :: (mid ++ pkgRule M :: post)) y) := by
  have hroot : replaceAll (applyFields pre x ++ ((spongeRoot ++ "/pkg".toList)
        ++ applyFields pre y)) spongeRoot M
      = replaceAll (applyFields pre x) spongeRoot M
        ++ ((M ++ "/pkg".toList) ++ replaceAll (applyFields pre y) spongeRoot M) := by
    have e1 : applyFields pre x ++ ((spongeRoot ++ "/pkg".toList) ++ applyFields pre y)
        = applyFields pre x ++ (spongeRoot ++ ("/pkg".toList ++ applyFields pre y)) := by
      simp [List.append_assoc]
    rw [e1, replaceAll_root_split,
      replaceAll_eq_replaceGo ("/pkg".toList ++ applyFields pre y) _ _ spongeRoot_ne_nil,
      replaceGo_root_pkg M _ h2,
      ← replaceAll_eq_replaceGo (applyFields pre y) _ _ spongeRoot_ne_nil]
    simp [List.append_assoc]
  have hpkg : ∀ X Y : Str, straddles (M ++ "/pkg".toList) X ((M ++ "/pkg".toList) ++ Y) = false →
      replaceAll (X ++ ((M ++ "/pkg".toList) ++ Y)) (M ++ "/pkg".toList)
          (spongeRoot ++ "/pkg".toList)
        = replaceAll X (M ++ "/pkg".toList) (spongeRoot ++ "/pkg".toList)
          ++ ((spongeRoot ++ "/pkg".toList)
            ++ replaceAll Y (M ++ "/pkg".toList) (spongeRoot ++ "/pkg".toList)) := by
    intro X Y hs
    rw [replaceAll_eq_replaceGo _ _ _ (modulePkg_ne_nil M),
      replaceAll_eq_replaceGo _ _ _ (modulePkg_ne_nil M),
      replaceAll_eq_replaceGo _ _ _ (modulePkg_ne_nil M),
      replaceGo_boundary _ _ _ (modulePkg_ne_nil M) X.length X (Nat.le_refl _)
        (straddles_spec _ X _ hs),
      replaceGo_head _ _ _ (modulePkg_ne_nil M)]
  have hthrough : ∀ z : Str,
      applyFields (pre ++ ⟨spongeRoot, M, false⟩ :: (mid ++ pkgRule M :: post)) z
        = applyFields post
            (replaceAll (applyFields mid (replaceAll (applyFields pre z) spongeRoot M))
              (M ++ "/pkg".toList) (spongeRoot ++ "/pkg".toList)) := by
    intro z
    rw [applyFields_through, applyFields_through]
    rfl
  rw [hthrough, hthrough, hthrough, applyFields_leftAlone pre x _ y h1, hroot,
    applyFields_leftAlone mid _ _ _ h3, hpkg _ _ h4, applyFields_leftAlone post _ _ _ h5]

end ModuleRewriteLemmas

/-- C6, as stated, fails: the import line 13 of the template
`internal/handler/userExample_test.go` begins its path with the template root;
after the whole rule list of `addDAOFields` and of `addHandlerFields` for the
module name `foo` the line is what it was, its path still beginning with
`github.com/zhufuyi/sponge` and not with `foo`, while the import line 8 of an
`internal` package is rewritten.  A module name that another rule matches
fails too: with `userExampleNO       = 1` as module name the handler list
turns the library path into `userExampleNO = 7/pkg/gohttp`, and with
`github.com/me/UserExampleSvc` the rename turns the rewritten path of line 8
into `github.com/me/OrderSvc/internal/cache`. -/
theorem module_rewrite_counterexample :
    applyFields
        (addDAOFields demoNames "foo".toList (demoReplacer [] false false) 0
          [("tableName".toList, "Order".toList)])
        "\t\"github.com/zhufuyi/sponge/pkg/gohttp\"\n".toList
      = "\t\"github.com/zhufuyi/sponge/pkg/gohttp\"\n".toList ∧
    applyFields
        (addHandlerFields demoNames (fun s => s) 7 "foo".toList (demoReplacer [] false false) 0
          [("tableName".toList, "Order".toList)])
        "\t\"github.com/zhufuyi/sponge/pkg/gohttp\"\n".toList
      = "\t\"github.com/zhufuyi/sponge/pkg/gohttp\"\n".toList ∧
    applyFields
        (addDAOFields demoNames "foo".toList (demoReplacer [] false false) 0
          [("tableName".toList, "Order".toList)])
        "\t\"github.com/zhufuyi/sponge/internal/cache\"\n".toList
      = "\t\"foo/internal/cache\"\n".toList ∧
    applyFields
        (addHandlerFields demoNames (fun s => s) 7 "userExampleNO       = 1".toList
          (demoReplacer [] false false) 0 [("tableName".toList, "Order".toList)])
        "\t\"github.com/zhufuyi/sponge/pkg/gohttp\"\n".toList
      = "\t\"userExampleNO = 7/pkg/gohttp\"\n".toList ∧
    applyFields
        (addDAOFields demoNames "github.com/me/UserExampleSvc".toList
          (demoReplacer [] false false) 0 [("tableName".toList, "Order".toList)])
        "\t\"github.com/zhufuyi/sponge/internal/cache\"\n".toList
      = "\t\"github.com/me/OrderSvc/internal/cache\"\n".toList := by
  decide

/-- C6, amended. After the whole rule list of `addDAOFields`, and of
`addHandlerFields`, applied in list order as literal replace-all, an
occurrence of `github.com/zhufuyi/sponge` in the content, wherever it stands
(`x` before it, `y` after it), has become the module name, with before and
after it what the same list makes of `x` and of `y`, provided the other rules
leave it alone: no rule before the root rule finds a match that overlaps the
occurrence, and no rule after it finds a match that overlaps the module name
put in its place.  An occurrence followed by `/pkg` is the exception the lists
make by design: the rule module name + `/pkg` to
`github.com/zhufuyi/sponge/pkg` restores it, so after the whole list the
library path reads `github.com/zhufuyi/sponge/pkg` as before, again provided
the other rules leave it alone: no rule before the root rule overlaps the
library path, the `g` that ends `/pkg` does not begin a further occurrence of
the root, no rule between the root rule and the `/pkg` rule overlaps module
name + `/pkg`, no match of the `/pkg` rule reaches into it from the left, and
no rule after the `/pkg` rule overlaps the restored path.  `leftAlone` decides
these conditions on the rules and the surrounding content. -/
theorem module_rewrite_file_wide {W E : Type} (n : Names) (adj : Str → Str) (rnd : Nat)
    (M : Str) (r : Replacer W E) (w : W) (codes : Codes) :
    addDAOFields n M r w codes
      = daoRulesBefore n M r w codes
        ++ ⟨spongeRoot, M, false⟩ :: [pkgRule M, renameRule n codes] ∧
    addHandlerFields n adj rnd M r w codes
      = handlerRulesBefore n adj M r w codes
        ++ ⟨spongeRoot, M, false⟩ :: [numberRule rnd, pkgRule M, renameRule n codes] ∧
    (∀ x y : Str,
      leftAlone (daoRulesBefore n M r w codes) x spongeRoot y = true →
      leftAlone [pkgRule M, renameRule n codes]
        (replaceAll (applyFields (daoRulesBefore n M r w codes) x) spongeRoot M) M
        (replaceAll (applyFields (daoRulesBefore n M r w codes) y) spongeRoot M) = true →
      applyFields (addDAOFields n M r w codes) (x ++ spongeRoot ++ y)
        = applyFields (addDAOFields n M r w codes) x ++ M
          ++ applyFields (addDAOFields n M r w codes) y) ∧
    (∀ x y : Str,
      leftAlone (handlerRulesBefore n adj M r w codes) x spongeRoot y = true →
      leftAlone [numberRule rnd, pkgRule M, renameRule n codes]
        (replaceAll (applyFields (handlerRulesBefore n adj M r w codes) x) spongeRoot M) M
        (replaceAll (applyFields (handlerRulesBefore n adj M r w codes) y) spongeRoot M)
        = true →
      applyFields (addHandlerFields n adj rnd M r w codes) (x ++ spongeRoot ++ y)
        = applyFields (addHandlerFields n adj rnd M r w codes) x ++ M
          ++ applyFields (addHandlerFields n adj rnd M r w codes) y) ∧
    (∀ x y : Str,
      leftAlone (daoRulesBefore n M r w codes) x (spongeRoot ++ "/pkg".toList) y = true →
      spongeRoot.isPrefixOf ('g' :: applyFields (daoRulesBefore n M r w codes) y) = false →
      straddles (M ++ "/pkg".toList)
        (replaceAll (applyFields (daoRulesBefore n M r w codes) x) spongeRoot M)
        ((M ++ "/pkg".toList)
          ++ replaceAll (applyFields (daoRulesBefore n M r w codes) y) spongeRoot M)
        = false →
      leftAlone [renameRule n codes]
        (replaceAll (replaceAll (applyFields (daoRulesBefore n M r w codes) x) spongeRoot M)
          (M ++ "/pkg".toList) (spongeRoot ++ "/pkg".toList))
        (spongeRoot ++ "/pkg".toList)
        (replaceAll (replaceAll (applyFields (daoRulesBefore n M r w codes) y) spongeRoot M)
          (M ++ "/pkg".toList) (spongeRoot ++ "/pkg".toList)) = true →
      applyFields (addDAOFields n M r w codes) (x ++ (spongeRoot ++ "/pkg".toList) ++ y)
        = applyFields (addDAOFields n M r w codes) x ++ (spongeRoot ++ "/pkg".toList)
          ++ applyFields (addDAOFields n M r w codes) y) ∧
    (∀ x y : Str,
      leftAlone (handlerRulesBefore n adj M r w codes) x (spongeRoot ++ "/pkg".toList) y
        = true →
      spongeRoot.isPrefixOf ('g' :: applyFields (handlerRulesBefore n adj M r w codes) y)
        = false →
      leftAlone [numberRule rnd]
        (replaceAll (applyFields (handlerRulesBefore n adj M r w codes) x) spongeRoot M)
        (M ++ "/pkg".toList)
        (replaceAll (applyFields (handlerRulesBefore n adj M r w codes) y) spongeRoot M)
        = true →
      straddles (M ++ "/pkg".toList)
        (applyFields [numberRule rnd]
          (replaceAll (applyFields (handlerRulesBefore n adj M r w codes) x) spongeRoot M))
        ((M ++ "/pkg".toList)
          ++ applyFields [numberRule rnd]
            (replaceAll (applyFields (handlerRulesBefore n adj M r w codes) y) spongeRoot M))
        = false →
      leftAlone [renameRule n codes]
        (replaceAll
          (applyFields [numberRule rnd]
            (replaceAll (applyFields (handlerRulesBefore n adj M r w codes) x) spongeRoot M))
          (M ++ "/pkg".toList) (spongeRoot ++ "/pkg".toList))
        (spongeRoot ++ "/pkg".toList)
        (replaceAll
          (applyFields [numberRule rnd]
            (replaceAll (applyFields (handlerRulesBefore n adj M r w codes) y) spongeRoot M))
          (M ++ "/pkg".toList) (spongeRoot ++ "/pkg".toList)) = true →
      applyFields (addHandlerFields n adj rnd M r w codes)
          (x ++ (spongeRoot ++ "/pkg".toList) ++ y)
        = applyFields (addHandlerFields n adj rnd M r w codes) x
          ++ (spongeRoot ++ "/pkg".toList)
          ++ applyFields (addHandlerFields n adj rnd M r w codes) y) := by
  have hd : addDAOFields n M r w codes
      = daoRulesBefore n M r w codes
        ++ ⟨spongeRoot, M, false⟩ :: [pkgRule M, renameRule n codes] := by
    simp [addDAOFields, daoRulesBefore, pkgRule, renameRule, spongeRoot]
  have hh : addHandlerFields n adj rnd M r w codes
      = handlerRulesBefore n adj M r w codes
        ++ ⟨spongeRoot, M, false⟩ :: [numberRule rnd, pkgRule M, renameRule n codes] := by
    simp [addHandlerFields, handlerRulesBefore, pkgRule, renameRule, numberRule, spongeRoot]
  refine ⟨hd, hh, ?_, ?_, ?_, ?_⟩
  · intro x y h1 h2
    rw [hd, List.append_assoc x, List.append_assoc]
    exact own_path_generic _ _ M x y h1 h2
  · intro x y h1 h2
    rw [hh, List.append_assoc x, List.append_assoc]
    exact own_path_generic _ _ M x y h1 h2
  · intro x y h1 h2 h4 h5
    rw [hd, List.append_assoc x (spongeRoot ++ "/pkg".toList) y,
      List.append_assoc (applyFields _ x) (spongeRoot ++ "/pkg".toList)]
    exact lib_path_generic (daoRulesBefore n M r w codes) [] [renameRule n codes] M x y
      h1 h2 rfl h4 h5
  · intro x y h1 h2 h3 h4 h5
    rw [hh, List.append_assoc x (spongeRoot ++ "/pkg".toList) y,
      List.append_assoc (applyFields _ x) (spongeRoot ++ "/pkg".toList)]
    exact lib_path_generic (handlerRulesBefore n adj M r w codes) [numberRule rnd]
      [renameRule n codes] M x y h1 h2 h3 h4 h5

/-- The import lines 8 and 13 of the template
`internal/handler/userExample_test.go` under the module name `foo`: after the
whole list of `addDAOFields` the `internal` path begins with `foo`, and after
the whole list of `addHandlerFields` the library path reads as before. -/
theorem module_rewrite_file_wide_witness :
    applyFields
        (addDAOFields demoNames "foo".toList (demoReplacer [] false false) 0
          [("tableName".toList, "Order".toList)])
        ("\t\"".toList ++ spongeRoot
          ++ "/internal/cache\"\n\t\"github.com/zhufuyi/sponge/pkg/gohttp\"\n".toList)
      = "\t\"foo/internal/cache\"\n\t\"github.com/zhufuyi/sponge/pkg/gohttp\"\n".toList ∧
    applyFields
        (addHandlerFields demoNames (fun s => s) 7 "foo".toList (demoReplacer [] false false) 0
          [("tableName".toList, "Order".toList)])
        ("\t\"github.com/zhufuyi/sponge/internal/cache\"\n\t\"".toList
          ++ (spongeRoot ++ "/pkg".toList) ++ "/gohttp\"\n".toList)
      = "\t\"foo/internal/cache\"\n\t\"github.com/zhufuyi/sponge/pkg/gohttp\"\n".toList :=
  ⟨((module_rewrite_file_wide demoNames (fun s => s) 7 "foo".toList
        (demoReplacer [] false false) 0 [("tableName".toList, "Order".toList)]).2.2.1
      "\t\"".toList "/internal/cache\"\n\t\"github.com/zhufuyi/sponge/pkg/gohttp\"\n".toList
      (by decide) (by decide)).trans (by decide),
    ((module_rewrite_file_wide demoNames (fun s => s) 7 "foo".toList
        (demoReplacer [] false false) 0 [("tableName".toList, "Order".toList)]).2.2.2.2.2
      "\t\"github.com/zhufuyi/sponge/internal/cache\"\n\t\"".toList "/gohttp\"\n".toList
      (by decide) (by decide) (by decide) (by decide) (by decide)).trans (by decide)⟩

end Sponge
